import Mathlib

/-!
Verification of the contract_analyzer_streamlit repository.

This file gives a shallow embedding, in Lean 4, of the parts of the
repository that the specification talks about:

* `src/utils/pdf_processor.py` — PDF text extraction with OCR fallback,
  modelled over an abstract PDF document (the behaviour of the external
  `fitz`, DeepSeek and Tesseract libraries is an oracle parameter);
* `src/utils/ai_analyzer.py` — the LLM extraction task functions, modelled
  over an abstract LLM-call outcome and a JSON-parser oracle, with the
  markdown-fence cleaning, `json` value model and the Python `dict`
  normalisation steps (`setdefault`, `dict` merge, item defaulting)
  translated faithfully;
* `src/page_modules/tender_analysis.py` — the multi-document tender merge.

Python strings are modelled as `String` / `List Char`; Python `dict`s as
association lists with Python's insertion-order update semantics; Python
exceptions as `Except` / `Option` results.
-/

/-! ## JSON value model (the result of Python `json.loads`) -/

/-- A JSON value as produced by Python's `json.loads`.  Numbers are modelled
as integers (the claims under study never depend on float behaviour). -/
inductive JValue where
  | null : JValue
  | bool (b : Bool) : JValue
  | num (n : Int) : JValue
  | str (s : String) : JValue
  | arr (xs : List JValue) : JValue
  | obj (kvs : List (String × JValue)) : JValue

/-- Python truthiness of a JSON value (`bool(v)`). -/
def pyFalsy : JValue → Bool
  | .null => true
  | .bool b => !b
  | .num n => n == 0
  | .str s => s == ""
  | .arr xs => xs.isEmpty
  | .obj kvs => kvs.isEmpty

/-- A Python dict with JSON values: association list in insertion order. -/
abbrev JObj := List (String × JValue)

/-- First-occurrence lookup, i.e. Python `d.get(k)` returning `None` when
the key is absent. -/
def lookupL (o : JObj) (k : String) : Option JValue :=
  match o with
  | [] => none
  | (k', v) :: rest => if k' = k then some v else lookupL rest k

/-- Lookup on a `JValue`: Python `v.get(k)` (only objects support it). -/
def lookupJ (v : JValue) (k : String) : Option JValue :=
  match v with
  | .obj kvs => lookupL kvs k
  | _ => none

/-- Left-biased choice on optional values. -/
def optOr (a b : Option JValue) : Option JValue :=
  match a with
  | some v => some v
  | none => b

/-- Python `d.setdefault(k, v)`: keep the dict unchanged when `k` is
present, otherwise append the new binding (insertion order). -/
def setdefaultD (o : JObj) (k : String) (v : JValue) : JObj :=
  if (lookupL o k).isSome then o else o ++ [(k, v)]

/-- Apply `setdefault` for each of a list of defaults, in order; this is
the `for k, v in defaults.items(): parsed.setdefault(k, v)` loop. -/
def setdefaultAll (o : JObj) (ds : List (String × JValue)) : JObj :=
  ds.foldl (fun acc p => setdefaultD acc p.1 p.2) o

/-- Python `d[k] = v`: replace the value in place when present, else
append the binding. -/
def setKeyD (o : JObj) (k : String) (v : JValue) : JObj :=
  if (lookupL o k).isSome then
    o.map (fun p => (p.1, if p.1 = k then v else p.2))
  else o ++ [(k, v)]

/-- Python `{**a, **b}`: all keys of `a` (values overridden by `b` where
present) followed by the keys of `b` not in `a`. -/
def pymerge (a b : JObj) : JObj :=
  a.map (fun p => (p.1, ((lookupL b p.1).getD p.2))) ++
    b.filter (fun p => (lookupL a p.1).isNone)

@[simp]
theorem lookupL_nil (k : String) : lookupL [] k = none := rfl

@[simp]
theorem lookupL_cons (k' : String) (v : JValue) (rest : JObj) (k : String) :
    lookupL ((k', v) :: rest) k = if k' = k then some v else lookupL rest k := rfl

@[simp]
theorem optOr_some (v : JValue) (b : Option JValue) : optOr (some v) b = some v := rfl

@[simp]
theorem optOr_none (b : Option JValue) : optOr none b = b := rfl

theorem lookupL_append (o₁ o₂ : JObj) (k : String) :
    lookupL (o₁ ++ o₂) k = optOr (lookupL o₁ k) (lookupL o₂ k) := by
  induction o₁ with
  | nil => simp
  | cons p rest ih =>
      obtain ⟨k', v⟩ := p
      by_cases h : k' = k <;> simp [h, ih]

theorem lookupL_map_snd (g : String → JValue → JValue) (a : JObj) (k : String) :
    lookupL (a.map (fun p => (p.1, g p.1 p.2))) k = (lookupL a k).map (g k) := by
  induction a with
  | nil => simp
  | cons p rest ih =>
      obtain ⟨kp, vp⟩ := p
      by_cases hp : kp = k
      · subst hp
        simp
      · simp [hp, ih]

theorem lookupL_setdefaultD (o : JObj) (k' : String) (v : JValue) (k : String) :
    lookupL (setdefaultD o k' v) k =
      if k = k' then some ((lookupL o k).getD v) else lookupL o k := by
  unfold setdefaultD
  by_cases hmem : (lookupL o k').isSome
  · rw [if_pos hmem]
    by_cases hk : k = k'
    · subst hk
      obtain ⟨w, hw⟩ := Option.isSome_iff_exists.mp hmem
      simp [hw]
    · simp [hk]
  · rw [if_neg hmem, lookupL_append]
    have hnone : lookupL o k' = none := Option.not_isSome_iff_eq_none.mp hmem
    by_cases hk : k = k'
    · subst hk
      simp [hnone]
    · have hx : lookupL [(k', v)] k = none := by simp [Ne.symm hk]
      rw [hx, if_neg hk]
      cases h : lookupL o k <;> simp

theorem lookupL_setdefaultAll (ds : List (String × JValue)) (o : JObj) (k : String) :
    lookupL (setdefaultAll o ds) k = optOr (lookupL o k) (lookupL ds k) := by
  induction ds generalizing o with
  | nil =>
      cases h : lookupL o k <;> simp [setdefaultAll, h]
  | cons d rest ih =>
      obtain ⟨k', v⟩ := d
      have hstep : setdefaultAll o ((k', v) :: rest) =
          setdefaultAll (setdefaultD o k' v) rest := rfl
      rw [hstep, ih, lookupL_setdefaultD]
      by_cases hk : k = k'
      · subst hk
        cases h : lookupL o k <;> simp [h]
      · rw [if_neg hk]
        simp [Ne.symm hk]

theorem lookupL_setKeyD (o : JObj) (k' : String) (v : JValue) (k : String) :
    lookupL (setKeyD o k' v) k = if k = k' then some v else lookupL o k := by
  unfold setKeyD
  by_cases hmem : (lookupL o k').isSome
  · rw [if_pos hmem, lookupL_map_snd (fun k1 w => if k1 = k' then v else w)]
    by_cases hk : k = k'
    · subst hk
      obtain ⟨w, hw⟩ := Option.isSome_iff_exists.mp hmem
      simp [hw]
    · cases h : lookupL o k <;> simp [hk, h]
  · rw [if_neg hmem, lookupL_append]
    by_cases hk : k = k'
    · subst hk
      have hnone : lookupL o k = none := Option.not_isSome_iff_eq_none.mp hmem
      simp [hnone]
    · have hx : lookupL [(k', v)] k = none := by simp [Ne.symm hk]
      rw [hx, if_neg hk]
      cases h : lookupL o k <;> simp

theorem lookupL_filter_of_none (a b : JObj) (k : String)
    (ha : lookupL a k = none) :
    lookupL (b.filter (fun p => (lookupL a p.1).isNone)) k = lookupL b k := by
  induction b with
  | nil => simp
  | cons p rest ih =>
      obtain ⟨kp, vp⟩ := p
      by_cases hp : kp = k
      · subst hp
        have hkeep : (lookupL a kp).isNone = true := by simp [ha]
        simp [List.filter_cons, hkeep]
      · by_cases hkeep : (lookupL a kp).isNone = true
        · simp [List.filter_cons, hkeep, hp, ih]
        · simp [List.filter_cons, hkeep, hp, ih]

theorem lookupL_pymerge (a b : JObj) (k : String) :
    lookupL (pymerge a b) k = optOr (lookupL b k) (lookupL a k) := by
  unfold pymerge
  rw [lookupL_append]
  rw [lookupL_map_snd (fun k1 w => (lookupL b k1).getD w) a k]
  cases ha : lookupL a k with
  | some va =>
      cases hb : lookupL b k <;> simp
  | none =>
      rw [lookupL_filter_of_none a b k ha]
      cases hb : lookupL b k <;> simp

/-! ## Python string primitives

Python `str` values are modelled as `List Char` (wrapped in `String` at the
interfaces).  `str.strip()`, `str.split(sep)` and `sep in s` are translated
directly; `pysplit` carries out Python's left-to-right, non-overlapping
scan for the separator. -/

/-- Python `s.strip()` on a character list. -/
def pyStripL (l : List Char) : List Char :=
  ((l.dropWhile Char.isWhitespace).reverse.dropWhile Char.isWhitespace).reverse

/-- Python `s.strip()` on a string. -/
def pyStrip (s : String) : String := ⟨pyStripL s.data⟩

/-- Split a list at the first occurrence of (non-empty) `sep`: returns the
part strictly before the occurrence and the part strictly after it. -/
def findSplit? (sep : List Char) : List Char → Option (List Char × List Char)
  | [] => none
  | c :: cs =>
      if sep.isPrefixOf (c :: cs) then some ([], (c :: cs).drop sep.length)
      else
        match findSplit? sep cs with
        | some (a, b) => some (c :: a, b)
        | none => none

/-- Python `sep in s` (substring containment) for non-empty `sep`. -/
def containsSub (sep s : List Char) : Bool := (findSplit? sep s).isSome

/-- Fuel-driven worker for Python `s.split(sep)`. -/
def pysplitGo : Nat → List Char → List Char → List (List Char)
  | 0, _, s => [s]
  | fuel + 1, sep, s =>
      match findSplit? sep s with
      | none => [s]
      | some (a, b) => a :: pysplitGo fuel sep b

/-- Python `s.split(sep)` for non-empty `sep`: non-overlapping left-to-right
splitting at every occurrence of `sep`. -/
def pysplit (sep s : List Char) : List (List Char) :=
  if sep = [] then [s] else pysplitGo (s.length + 1) sep s

/-- Python `lst[i]` on the result of a split (the source only indexes
positions that its `in`-guard guarantees exist). -/
def segGet (l : List (List Char)) (i : Nat) : List Char := l.getD i []

theorem findSplit?_decomp (sep : List Char) (s a b : List Char)
    (h : findSplit? sep s = some (a, b)) : s = a ++ sep ++ b := by
  induction s generalizing a b with
  | nil => simp [findSplit?] at h
  | cons c cs ih =>
      unfold findSplit? at h
      by_cases hp : sep.isPrefixOf (c :: cs)
      · rw [if_pos hp] at h
        obtain ⟨rfl, rfl⟩ : a = [] ∧ b = (c :: cs).drop sep.length := by
          constructor <;> simp_all
        have hpre : sep <+: (c :: cs) := by
          exact (List.isPrefixOf_iff_prefix).mp hp
        obtain ⟨t, ht⟩ := hpre
        simp [← ht, List.drop_left' (by rfl : sep.length = sep.length)]
      · rw [if_neg hp] at h
        cases heq : findSplit? sep cs with
        | none => rw [heq] at h; simp at h
        | some ab =>
            obtain ⟨a', b'⟩ := ab
            rw [heq] at h
            simp at h
            obtain ⟨rfl, rfl⟩ := h
            have := ih a' b' heq
            simp [this]

theorem findSplit?_snd_length_lt (sep : List Char) (hsep : sep ≠ []) (s a b : List Char)
    (h : findSplit? sep s = some (a, b)) : b.length < s.length := by
  have hd := findSplit?_decomp sep s a b h
  have : s.length = a.length + sep.length + b.length := by
    simp [hd]
    omega
  have hsl : 1 ≤ sep.length := by
    cases sep with
    | nil => exact absurd rfl hsep
    | cons x xs => simp
  omega

theorem findSplit?_before_none (sep : List Char) (s a b : List Char)
    (h : findSplit? sep s = some (a, b)) : findSplit? sep a = none := by
  induction s generalizing a b with
  | nil => simp [findSplit?] at h
  | cons c cs ih =>
      unfold findSplit? at h
      by_cases hp : sep.isPrefixOf (c :: cs)
      · rw [if_pos hp] at h
        have ha : a = [] := by simp_all
        simp [ha, findSplit?]
      · rw [if_neg hp] at h
        cases heq : findSplit? sep cs with
        | none => rw [heq] at h; simp at h
        | some ab =>
            obtain ⟨a', b'⟩ := ab
            rw [heq] at h
            simp at h
            obtain ⟨rfl, rfl⟩ := h
            have hnone := ih a' b' heq
            unfold findSplit?
            have hnp : ¬ sep.isPrefixOf (c :: a') := by
              intro hcon
              apply hp
              rw [List.isPrefixOf_iff_prefix] at hcon ⊢
              have hpre : (c :: a') <+: (c :: cs) := by
                refine ⟨sep ++ b', ?_⟩
                have := findSplit?_decomp sep cs a' b' heq
                simp [this]
              exact hcon.trans hpre
            rw [if_neg hnp, hnone]

theorem pysplitGo_fuel_irrel (sep : List Char) (hsep : sep ≠ []) :
    ∀ (fuel fuel' : Nat) (s : List Char), s.length < fuel → s.length < fuel' →
      pysplitGo fuel sep s = pysplitGo fuel' sep s := by
  intro fuel
  induction fuel with
  | zero => intro fuel' s h; omega
  | succ n ih =>
      intro fuel' s hlt hlt'
      cases fuel' with
      | zero => omega
      | succ m =>
          unfold pysplitGo
          cases heq : findSplit? sep s with
          | none => rfl
          | some ab =>
              obtain ⟨a, b⟩ := ab
              have hb := findSplit?_snd_length_lt sep hsep s a b heq
              simp only []
              rw [ih m b (by omega) (by omega)]

theorem pysplit_of_none (sep : List Char) (hsep : sep ≠ []) (s : List Char)
    (h : findSplit? sep s = none) : pysplit sep s = [s] := by
  unfold pysplit pysplitGo
  rw [if_neg hsep]
  simp [h]

theorem pysplitGo_succ (fuel : Nat) (sep s : List Char) :
    pysplitGo (fuel + 1) sep s =
      match findSplit? sep s with
      | none => [s]
      | some (a, b) => a :: pysplitGo fuel sep b := rfl

theorem pysplit_of_some (sep : List Char) (hsep : sep ≠ []) (s a b : List Char)
    (h : findSplit? sep s = some (a, b)) : pysplit sep s = a :: pysplit sep b := by
  have hb := findSplit?_snd_length_lt sep hsep s a b h
  unfold pysplit
  rw [if_neg hsep, if_neg hsep, pysplitGo_succ, h]
  show a :: pysplitGo s.length sep b = a :: pysplitGo (b.length + 1) sep b
  rw [pysplitGo_fuel_irrel sep hsep s.length (b.length + 1) b (by omega) (by omega)]

/-- The part of `s` strictly before the first occurrence of `sep` (all of
`s` when `sep` does not occur); the specification's "content up to the
next closing fence". -/
def beforeFirst (sep s : List Char) : List Char :=
  ((findSplit? sep s).map Prod.fst).getD s

/-- The part of `s` strictly after the first occurrence of `sep` (all of
`s` when `sep` does not occur); the specification's "content after the
fence". -/
def afterFirst (sep s : List Char) : List Char :=
  ((findSplit? sep s).map Prod.snd).getD s

theorem segGet_zero_pysplit (sep : List Char) (hsep : sep ≠ []) (s : List Char) :
    segGet (pysplit sep s) 0 = beforeFirst sep s := by
  cases h : findSplit? sep s with
  | none => rw [pysplit_of_none sep hsep s h]; simp [segGet, beforeFirst, h]
  | some ab =>
      obtain ⟨a, b⟩ := ab
      rw [pysplit_of_some sep hsep s a b h]
      simp [segGet, beforeFirst, h]

theorem segGet_one_pysplit (sep : List Char) (hsep : sep ≠ []) (s a b : List Char)
    (h : findSplit? sep s = some (a, b)) :
    segGet (pysplit sep s) 1 = beforeFirst sep b := by
  rw [pysplit_of_some sep hsep s a b h]
  have : segGet (a :: pysplit sep b) 1 = segGet (pysplit sep b) 0 := by
    simp [segGet]
  rw [this, segGet_zero_pysplit sep hsep b]

theorem beforeFirst_no_sep (sep s : List Char) :
    findSplit? sep (beforeFirst sep s) = none ∨ beforeFirst sep s = s := by
  cases h : findSplit? sep s with
  | none => right; simp [beforeFirst, h]
  | some ab =>
      obtain ⟨a, b⟩ := ab
      left
      have := findSplit?_before_none sep s a b h
      simp [beforeFirst, h, this]

theorem beforeFirst_idem (sep s : List Char) :
    beforeFirst sep (beforeFirst sep s) = beforeFirst sep s := by
  cases h : findSplit? sep s with
  | none => simp [beforeFirst, h]
  | some ab =>
      obtain ⟨a, b⟩ := ab
      have hn := findSplit?_before_none sep s a b h
      simp [beforeFirst, h, hn]

/-! ## Markdown-fence cleaning of LLM responses (ai_analyzer.py)

Every extraction task in `src/utils/ai_analyzer.py` cleans the raw model
response before `json.loads`:

    response_text = response.choices[0].message.content.strip()
    if "```json" in response_text:
        response_text = response_text.split("```json")[1].split("```")[0].strip()
    elif "```" in response_text:
        response_text = response_text.split("```")[1].strip()

`extract_specifications_from_text` (lines 517-521) uses a second variant
whose elif branch is `response_text.split("```")[1].split("```")[0].strip()`.
-/

/-- The marker `"```json"`. -/
def jsonFenceMarker : List Char := "```json".toList

/-- The marker `"```"`. -/
def fenceMarker : List Char := "```".toList

/-- The response-cleaning step shared by `analyze_contract`,
`extract_client_and_products`, `extract_client_and_products_from_invoices`,
`group_similar_products`, `compare_specifications_with_ai`,
`analyze_tender_document`, `analyze_tender_with_fields`,
`analyze_cooperation_agreement` and `compare_contracts`
(ai_analyzer.py lines 72-78 and analogues). -/
def strip_markdown_fences (raw : String) : String :=
  let t := pyStripL raw.data
  if containsSub jsonFenceMarker t then
    ⟨pyStripL (segGet (pysplit fenceMarker (segGet (pysplit jsonFenceMarker t) 1)) 0)⟩
  else if containsSub fenceMarker t then
    ⟨pyStripL (segGet (pysplit fenceMarker t) 1)⟩
  else ⟨t⟩

/-- The response-cleaning variant of `extract_specifications_from_text`
(ai_analyzer.py lines 517-521), whose elif branch also cuts at the
closing fence. -/
def strip_markdown_fences_b (raw : String) : String :=
  let t := pyStripL raw.data
  if containsSub jsonFenceMarker t then
    ⟨pyStripL (segGet (pysplit fenceMarker (segGet (pysplit jsonFenceMarker t) 1)) 0)⟩
  else if containsSub fenceMarker t then
    ⟨pyStripL (segGet (pysplit fenceMarker (segGet (pysplit fenceMarker t) 1)) 0)⟩
  else ⟨t⟩

/-- Modelled from the spec sentence (C7, literal reading): "if the text
contains a fenced code block marked as JSON, extract only the content
between that fence and the next closing fence; else if any fenced block
exists, extract its content; else use the full trimmed text" — where
"the next closing fence" is the first occurrence of \x60\x60\x60 after
the first \x60\x60\x60json marker. -/
def fence_selection_literal (raw : String) : String :=
  let t := pyStripL raw.data
  if containsSub jsonFenceMarker t then
    ⟨pyStripL (beforeFirst fenceMarker (afterFirst jsonFenceMarker t))⟩
  else if containsSub fenceMarker t then
    ⟨pyStripL (beforeFirst fenceMarker (afterFirst fenceMarker t))⟩
  else ⟨t⟩

/-- The amended selection rule: like `fence_selection_literal`, except that
in the json-fence branch the considered region stops at the next
\x60\x60\x60json marker (Python's non-overlapping split) before being cut
at the first closing fence. -/
def fence_selection_amended (raw : String) : String :=
  let t := pyStripL raw.data
  if containsSub jsonFenceMarker t then
    ⟨pyStripL (beforeFirst fenceMarker (beforeFirst jsonFenceMarker (afterFirst jsonFenceMarker t)))⟩
  else if containsSub fenceMarker t then
    ⟨pyStripL (beforeFirst fenceMarker (afterFirst fenceMarker t))⟩
  else ⟨t⟩

theorem jsonFenceMarker_ne_nil : jsonFenceMarker ≠ [] := by decide

theorem fenceMarker_ne_nil : fenceMarker ≠ [] := by decide

theorem strip_markdown_fences_eq_amended (raw : String) :
    strip_markdown_fences raw = fence_selection_amended raw := by
  unfold strip_markdown_fences fence_selection_amended
  set t := pyStripL raw.data with ht
  by_cases hj : containsSub jsonFenceMarker t = true
  · rw [if_pos hj, if_pos hj]
    obtain ⟨ab, hab⟩ := Option.isSome_iff_exists.mp hj
    obtain ⟨a, b⟩ := ab
    rw [segGet_one_pysplit jsonFenceMarker jsonFenceMarker_ne_nil t a b hab]
    rw [segGet_zero_pysplit fenceMarker fenceMarker_ne_nil]
    have hafter : afterFirst jsonFenceMarker t = b := by
      simp [afterFirst, hab]
    rw [hafter]
  · rw [if_neg hj, if_neg hj]
    by_cases hf : containsSub fenceMarker t = true
    · rw [if_pos hf, if_pos hf]
      obtain ⟨ab, hab⟩ := Option.isSome_iff_exists.mp hf
      obtain ⟨a, b⟩ := ab
      rw [segGet_one_pysplit fenceMarker fenceMarker_ne_nil t a b hab]
      have hafter : afterFirst fenceMarker t = b := by
        simp [afterFirst, hab]
      rw [hafter]
    · rw [if_neg hf, if_neg hf]

theorem strip_markdown_fences_b_eq_amended (raw : String) :
    strip_markdown_fences_b raw = fence_selection_amended raw := by
  unfold strip_markdown_fences_b fence_selection_amended
  set t := pyStripL raw.data with ht
  by_cases hj : containsSub jsonFenceMarker t = true
  · rw [if_pos hj, if_pos hj]
    obtain ⟨ab, hab⟩ := Option.isSome_iff_exists.mp hj
    obtain ⟨a, b⟩ := ab
    rw [segGet_one_pysplit jsonFenceMarker jsonFenceMarker_ne_nil t a b hab]
    rw [segGet_zero_pysplit fenceMarker fenceMarker_ne_nil]
    have hafter : afterFirst jsonFenceMarker t = b := by
      simp [afterFirst, hab]
    rw [hafter]
  · rw [if_neg hj, if_neg hj]
    by_cases hf : containsSub fenceMarker t = true
    · rw [if_pos hf, if_pos hf]
      obtain ⟨ab, hab⟩ := Option.isSome_iff_exists.mp hf
      obtain ⟨a, b⟩ := ab
      rw [segGet_one_pysplit fenceMarker fenceMarker_ne_nil t a b hab]
      rw [segGet_zero_pysplit fenceMarker fenceMarker_ne_nil]
      rw [beforeFirst_idem]
      have hafter : afterFirst fenceMarker t = b := by
        simp [afterFirst, hab]
      rw [hafter]
    · rw [if_neg hf, if_neg hf]

example : strip_markdown_fences "a```jsonBC`````jsonD" = "BC``" := by decide

example : fence_selection_literal "a```jsonBC`````jsonD" = "BC" := by decide

/-! ## PDF text extraction (src/utils/pdf_processor.py)

`extract_text_from_pdf` is modelled over an abstract document: the external
libraries are oracles.  `fitzOpen` stands for `fitz.open` on the written
temp file — it either raises (corrupted bytes) or yields the document's
pages; each page carries its native text layer (`page.get_text()`), the
outcome of the DeepSeek-OCR attempt and the outcome of the Tesseract
attempt.  Since the same bytes are written to the temp file, the
`fitz.open` inside `_extract_text_with_ocr` sees the same document and
cannot fail when the native open succeeded, so the OCR model receives the
already-opened document.  The returned `PdfEffects` value records the
observable file-system effects of one call: whether the temporary PDF copy
was created/removed, how many times `_extract_text_with_ocr` ran, and
which per-page temporary OCR images were still on disk on return. -/

/-- Outcome of the DeepSeek branch on one page (pdf_processor.py lines
108-146).  `raisesBeforeSave`: loading the model or rendering raised
before `image.save(temp_img_path)`; `raisesAfterSave`: `model.infer`
raised after the temp image was written; `returns s`: `str(result).strip()`
evaluated to `s` (with a falsy `result` modelled as `s = ""`, which takes
the same fall-through path). -/
inductive DeepSeekOutcome where
  | raisesBeforeSave : DeepSeekOutcome
  | raisesAfterSave : DeepSeekOutcome
  | returns (stripped : String) : DeepSeekOutcome
deriving DecidableEq

/-- One page of the opened PDF: its native text layer and the oracle
outcomes of the two OCR engines (`tesseract = none` means
`pytesseract.image_to_string` raised; `some s` is the stripped result). -/
structure PdfPage where
  nativeText : String
  deepseek : DeepSeekOutcome
  tesseract : Option String
deriving DecidableEq

/-- The abstract document produced by `fitz.open`. -/
structure PdfDoc where
  pages : List PdfPage
deriving DecidableEq

/-- The argument of `extract_text_from_pdf`: raw bytes / bytearray, a
stream whose `getvalue()`/`read()` succeeds, a stream whose read raises,
or an object with neither attribute (so `pdf_bytes` stays `None`). -/
inductive UploadInput where
  | bytes (b : List Nat) : UploadInput
  | stream (b : List Nat) : UploadInput
  | streamRaises (e : String) : UploadInput
  | inert : UploadInput

/-- Lines 37-51: obtain the PDF bytes; a raised read exception is caught
and mapped to the `[PDF Read Error: ...]` return string by the caller.
`inert` leaves `pdf_bytes = None`, modelled as the empty byte list (both
take the falsy branch of line 53). -/
def obtain_pdf_bytes : UploadInput → Except String (List Nat)
  | .bytes b => .ok b
  | .stream b => .ok b
  | .streamRaises e => .error e
  | .inert => .ok []

/-- Observable file-system effects of one `extract_text_from_pdf` call. -/
structure PdfEffects where
  tmpPdfCreated : Bool
  tmpPdfRemoved : Bool
  ocrCalls : Nat
  leakedTempImages : List String
deriving DecidableEq

/-- The per-page temp image path `temp_page_{page_num}.png` (line 122). -/
def tempImgPath (pageNum : Nat) : String :=
  "temp_page_" ++ toString pageNum ++ ".png"

/-- The Tesseract fall-back of one page (lines 149-154): append the
stripped page text plus a newline when non-empty; a raised exception
skips the page. -/
def tesseractText (p : PdfPage) : String :=
  match p.tesseract with
  | none => ""
  | some s => if s ≠ "" then s ++ "\n" else ""

/-- One iteration of the OCR page loop (lines 99-154): returns the text
contributed to `ocr_text` and the temp image files left on disk.  The
temp image is removed on both non-raising DeepSeek paths (lines 139-140
and 143-144) but not when `model.infer` raises after the save (line 145
just falls through to Tesseract). -/
def ocrPage (transformersAvailable : Bool) (pageNum : Nat) (p : PdfPage) :
    String × List String :=
  if transformersAvailable then
    match p.deepseek with
    | .raisesBeforeSave => (tesseractText p, [])
    | .raisesAfterSave => (tesseractText p, [tempImgPath pageNum])
    | .returns s => if s ≠ "" then (s ++ "\n", []) else (tesseractText p, [])
  else (tesseractText p, [])

/-- `_extract_text_with_ocr` (lines 82-161) on the already-opened
document: concatenate the per-page OCR contributions (pages enumerated
from 1) and fall back to the `[OCR Error: ...]` sentinel when the total
is empty or all-whitespace. -/
def _extract_text_with_ocr (transformersAvailable : Bool) (doc : PdfDoc) :
    String × List String :=
  let parts := doc.pages.enum.map (fun pr => ocrPage transformersAvailable (pr.1 + 1) pr.2)
  let ocr_text := String.join (parts.map Prod.fst)
  let leaked := (parts.map Prod.snd).flatten
  (if pyStrip ocr_text = "" then "[OCR Error: No text extracted from any page]"
   else ocr_text, leaked)

/-- `extract_text_from_pdf` (lines 26-79).  The first component is the
call's outcome: `.ok s` when the function returns the string `s`, and
`.error e` when an exception propagates to the caller — which happens
exactly when `fitz.open` raises inside the `try`/`finally` block (lines
62-77), whose `finally` removes the temp PDF and re-raises. -/
def extract_text_from_pdf (transformersAvailable : Bool)
    (fitzOpen : List Nat → Except String PdfDoc) (file : UploadInput) :
    Except String String × PdfEffects :=
  match obtain_pdf_bytes file with
  | .error e => (.ok ("[PDF Read Error: " ++ e ++ "]"), ⟨false, false, 0, []⟩)
  | .ok b =>
      if b.isEmpty then (.ok "[PDF Error: Empty upload]", ⟨false, false, 0, []⟩)
      else
        match fitzOpen b with
        | .error e => (.error e, ⟨true, true, 0, []⟩)
        | .ok doc =>
            let full_text := String.join (doc.pages.map (fun p => p.nativeText))
            if pyStrip full_text = "" then
              let r := _extract_text_with_ocr transformersAvailable doc
              (.ok r.1, ⟨true, true, 1, r.2⟩)
            else (.ok full_text, ⟨true, true, 0, []⟩)

theorem pyStripL_eq_nil_iff (l : List Char) :
    pyStripL l = [] ↔ ∀ c ∈ l, c.isWhitespace := by
  unfold pyStripL
  constructor
  · intro h c hc
    have h2 : (l.dropWhile Char.isWhitespace).reverse.dropWhile Char.isWhitespace = [] := by
      have := congrArg List.reverse h
      simpa using this
    have h3 : ∀ y ∈ l.dropWhile Char.isWhitespace, y.isWhitespace := by
      intro y hy
      have := List.dropWhile_eq_nil_iff.mp h2 y (by simpa using hy)
      simpa using this
    have hsplit : l = l.takeWhile Char.isWhitespace ++ l.dropWhile Char.isWhitespace :=
      (List.takeWhile_append_dropWhile Char.isWhitespace l).symm
    rw [hsplit] at hc
    rcases List.mem_append.mp hc with h4 | h4
    · exact List.mem_takeWhile_imp h4
    · exact h3 c h4
  · intro h
    have h1 : l.dropWhile Char.isWhitespace = [] :=
      List.dropWhile_eq_nil_iff.mpr (fun c hc => h c hc)
    simp [h1]

theorem pyStrip_eq_empty_iff (s : String) :
    pyStrip s = "" ↔ ∀ c ∈ s.data, c.isWhitespace := by
  unfold pyStrip
  rw [show ("" : String) = ⟨[]⟩ from rfl]
  constructor
  · intro h
    exact (pyStripL_eq_nil_iff _).mp (by injection h)
  · intro h
    rw [(pyStripL_eq_nil_iff _).mpr h]

/-! ## LLM extraction tasks (src/utils/ai_analyzer.py)

Each task function takes the configuration state of the Azure client
(`configured = false` models `azure_config.client` being `None`), the
outcome of the chat-completion call (an oracle: it raises or returns the
stripped response text `response.choices[0].message.content.strip()`),
and the `json.loads` oracle `jsonParse` applied to the fence-cleaned
text.  A non-object parse result makes the subsequent attribute accesses
(`.setdefault`, `.get`) raise `AttributeError`, which the surrounding
`except Exception` catches into the same fallback; such internally raised
exceptions are modelled with the constant messages `"AttributeError"` /
`"TypeError"` standing for `str(e)` of the corresponding Python error. -/

/-- Outcome of `azure_config.client.chat.completions.create(...)` plus the
message-content access: raises, or returns the stripped response text. -/
inductive LLMResp where
  | raises (e : String) : LLMResp
  | returns (text : String) : LLMResp

/-- The credentials error message of `analyze_contract` (lines 23-24). -/
def azure_creds_error_msg : String :=
  "❌ Azure OpenAI credentials not configured. Please set AZURE_OPENAI_API_KEY and AZURE_OPENAI_ENDPOINT environment variables."

/-- The parse-failure fallback object of `analyze_contract` (lines 83-93). -/
def analyze_contract_fallback (e : String) : JValue :=
  .obj [("error", .str ("❌ Error analyzing contract: " ++ e)),
        ("summary", .str "Analysis failed"),
        ("client_name", .str "Unknown"),
        ("contract_type", .str "Unknown"),
        ("start_date", .str "Not specified"),
        ("end_date", .str "Not specified"),
        ("products_services", .arr []),
        ("key_clauses", .arr []),
        ("risk_areas", .arr [])]

/-- The task-schema keys of `analyze_contract` as documented in its prompt
(lines 31-59). -/
def contract_schema_keys : List String :=
  ["summary", "client_name", "contract_type", "start_date", "end_date",
   "products_services", "key_clauses", "risk_areas"]

/-- `analyze_contract` (lines 10-93). -/
def analyze_contract (configured : Bool) (resp : LLMResp)
    (jsonParse : String → Except String JValue) : JValue :=
  if configured then
    match resp with
    | .raises e => analyze_contract_fallback e
    | .returns t =>
        match jsonParse (strip_markdown_fences t) with
        | .ok v => v
        | .error e => analyze_contract_fallback e
  else .obj [("error", .str azure_creds_error_msg)]

/-- The parse-failure fallback of `extract_client_and_products`
(lines 164-170). -/
def extract_client_and_products_fallback (e : String) : JValue :=
  .obj [("client_name", .str "Extraction failed"),
        ("products", .arr []),
        ("contract_type", .str "Unknown"),
        ("total_estimated_value", .str "Not specified"),
        ("error", .str e)]

/-- `extract_client_and_products` (lines 96-170): on a successful parse the
value from `json.loads` is returned verbatim (line 161). -/
def extract_client_and_products (configured : Bool) (resp : LLMResp)
    (jsonParse : String → Except String JValue) : JValue :=
  if configured then
    match resp with
    | .raises e => extract_client_and_products_fallback e
    | .returns t =>
        match jsonParse (strip_markdown_fences t) with
        | .ok v => v
        | .error e => extract_client_and_products_fallback e
  else
    .obj [("client_name", .str "❌ Credentials not configured"),
          ("products", .arr []),
          ("contract_type", .str "❌ Credentials not configured"),
          ("error", .str "Azure OpenAI credentials not configured")]

/-- The top-level defaults of `extract_client_and_products_from_invoices`
(lines 263-283), in source order. -/
def invoice_top_defaults : List (String × JValue) :=
  [("invoice_number", .str "Not specified"),
   ("invoice_date", .str "Not specified"),
   ("due_date", .str "Not specified"),
   ("currency", .str "Not specified"),
   ("total_amount", .str "Not specified"),
   ("subtotal", .str "Not specified"),
   ("tax_amount", .str "Not specified"),
   ("tax_rate_percent", .str "Not specified"),
   ("payment_terms", .str "Not specified"),
   ("po_number", .str "Not specified"),
   ("supplier_name", .str "Not specified"),
   ("supplier_address", .str "Not specified"),
   ("customer_name", .str "Not specified"),
   ("customer_address", .str "Not specified"),
   ("ship_to", .str "Not specified"),
   ("tax_id", .str "Not specified"),
   ("contract_type", .str "Not specified"),
   ("notes", .str "Not specified"),
   ("products", .arr [])]

/-- The required top-level keys of the invoice task. -/
def invoice_top_keys : List String := invoice_top_defaults.map Prod.fst

/-- The string-valued required top-level keys (all except `products`). -/
def invoice_string_keys : List String :=
  ["invoice_number", "invoice_date", "due_date", "currency", "total_amount",
   "subtotal", "tax_amount", "tax_rate_percent", "payment_terms", "po_number",
   "supplier_name", "supplier_address", "customer_name", "customer_address",
   "ship_to", "tax_id", "contract_type", "notes"]

/-- The entry sub-schema keys of the invoice `products` array. -/
def invoice_entry_keys : List String :=
  ["product_name", "description", "quantity", "unit", "unit_price",
   "line_total", "currency", "tax_rate_percent", "sku_or_part_number"]

/-- The per-entry defaults `item_defaults` (lines 288-298); `currency` and
`tax_rate_percent` inherit the top-level values of the (already defaulted)
parsed object. -/
def invoice_item_defaults (parsed : JObj) : List (String × JValue) :=
  [("product_name", .str "Not specified"),
   ("description", .str "Not specified"),
   ("quantity", .str "Not specified"),
   ("unit", .str "Not specified"),
   ("unit_price", .str "Not specified"),
   ("line_total", .str "Not specified"),
   ("currency", (lookupL parsed "currency").getD (.str "Not specified")),
   ("tax_rate_percent", (lookupL parsed "tax_rate_percent").getD (.str "Not specified")),
   ("sku_or_part_number", .str "Not specified")]

/-- `normalized = {**item_defaults, **(item or {})}` (line 299); `none`
models the `TypeError` raised when `item` is truthy but not a mapping. -/
def normalize_invoice_item (parsed : JObj) (item : JValue) : Option JValue :=
  if pyFalsy item then some (.obj (invoice_item_defaults parsed))
  else
    match item with
    | .obj kvs => some (.obj (pymerge (invoice_item_defaults parsed) kvs))
    | _ => none

/-- The `for item in parsed.get("products", [])` loop (lines 286-300):
normalise every entry in order; `none` propagates a raised `TypeError`. -/
def normalize_invoice_items (parsed : JObj) : List JValue → Option (List JValue)
  | [] => some []
  | it :: rest =>
      match normalize_invoice_item parsed it with
      | none => none
      | some n =>
          match normalize_invoice_items parsed rest with
          | none => none
          | some ns => some (n :: ns)

/-- The products part of the invoice normalisation, on the already
defaulted `parsed` dict (lines 286-301): iterate `parsed.get("products", [])`
and store the normalised entries back under `products`; `none` models an
exception (non-list `products` or a truthy non-dict entry). -/
def normalize_invoice_parsed (parsed : JObj) : Option JValue :=
  match (lookupL parsed "products").getD (.arr []) with
  | .arr items =>
      match normalize_invoice_items parsed items with
      | some normalized => some (.obj (setKeyD parsed "products" (.arr normalized)))
      | none => none
  | .str s =>
      if s = "" then some (.obj (setKeyD parsed "products" (.arr []))) else none
  | .obj kvs2 =>
      if kvs2.isEmpty then some (.obj (setKeyD parsed "products" (.arr []))) else none
  | _ => none

/-- The post-parse normalisation of the invoice task (lines 261-302):
apply the top-level `setdefault` loop, then normalise the products;
`none` models an exception inside the `try` (non-dict payload, non-list
`products`, or a truthy non-dict entry), which lands in the same
`except` fallback. -/
def normalize_invoice_payload (v : JValue) : Option JValue :=
  match v with
  | .obj kvs => normalize_invoice_parsed (setdefaultAll kvs invoice_top_defaults)
  | _ => none

/-- The full fallback object of the invoice task (lines 305-326), in
source order. -/
def invoice_fallback (e : String) : JValue :=
  .obj [("invoice_number", .str "Not specified"),
        ("invoice_date", .str "Not specified"),
        ("due_date", .str "Not specified"),
        ("currency", .str "Not specified"),
        ("total_amount", .str "Not specified"),
        ("subtotal", .str "Not specified"),
        ("tax_amount", .str "Not specified"),
        ("tax_rate_percent", .str "Not specified"),
        ("payment_terms", .str "Not specified"),
        ("po_number", .str "Not specified"),
        ("supplier_name", .str "Not specified"),
        ("supplier_address", .str "Not specified"),
        ("customer_name", .str "Extraction failed"),
        ("customer_address", .str "Not specified"),
        ("ship_to", .str "Not specified"),
        ("tax_id", .str "Not specified"),
        ("products", .arr []),
        ("contract_type", .str "Unknown"),
        ("notes", .str "Not specified"),
        ("error", .str e)]

/-- `extract_client_and_products_from_invoices` (lines 184-326). -/
def extract_client_and_products_from_invoices (configured : Bool) (resp : LLMResp)
    (jsonParse : String → Except String JValue) : JValue :=
  if configured then
    match resp with
    | .raises e => invoice_fallback e
    | .returns t =>
        match jsonParse (strip_markdown_fences t) with
        | .ok v =>
            match normalize_invoice_payload v with
            | some out => out
            | none => invoice_fallback "TypeError"
        | .error e => invoice_fallback e
  else
    .obj [("client_name", .str "❌ Credentials not configured"),
          ("products", .arr []),
          ("contract_type", .str "❌ Credentials not configured"),
          ("error", .str "Azure OpenAI credentials not configured")]

/-- A hashable (scalar) JSON value, as Python's `set.add` requires. -/
inductive JScalar where
  | null : JScalar
  | bool (b : Bool) : JScalar
  | num (n : Int) : JScalar
  | str (s : String) : JScalar
deriving DecidableEq

/-- The hashable view of a JSON value (`none` for lists/dicts, whose
`set.add` raises `TypeError`). -/
def toScalar? : JValue → Option JScalar
  | .null => some .null
  | .bool b => some (.bool b)
  | .num n => some (.num n)
  | .str s => some (.str s)
  | .arr _ => none
  | .obj _ => none

/-- A JSON value usable as a Python list index in `0 <= pid < len(...)`
followed by `products_list[pid]`: an int (Python `bool` is an `int`
subtype, `True == 1`); anything else raises `TypeError`. -/
def pyIndex? : JValue → Option Int
  | .num n => some n
  | .bool b => some (if b then 1 else 0)
  | _ => none

/-- Python `set.add` on a list-represented set (only the cardinality of
the set is consumed by the source). -/
def setAdd (s : List (Option JScalar)) (x : Option JScalar) : List (Option JScalar) :=
  if x ∈ s then s else x :: s

/-- Python iteration over the value of `result.get(..., [])` in a
`for`-loop whose body indexes with the element: a list iterates its
elements; an empty string or empty dict iterates nothing; any other value
either is not iterable or yields non-index elements, so the loop raises
(`none`). -/
def pyIterList? : JValue → Option (List JValue)
  | .arr xs => some xs
  | .str s => if s = "" then some [] else none
  | .obj kvs => if kvs.isEmpty then some [] else none
  | _ => none

/-- The client-collection loop of `group_similar_products`
(lines 417-420): for every in-range product id, add
`products_list[pid].get("client_name")` to the `clients` set; out-of-range
ids are skipped; `none` models a raised `TypeError` (non-int id, or an
unhashable client value). -/
def collect_clients (products_list : List JObj) :
    List JValue → List (Option JScalar) → Option (List (Option JScalar))
  | [], acc => some acc
  | pv :: rest, acc =>
      match pyIndex? pv with
      | none => none
      | some pid =>
          if 0 ≤ pid then
            match products_list[pid.toNat]? with
            | some prod =>
                match lookupL prod "client_name" with
                | none => collect_clients products_list rest (setAdd acc none)
                | some cv =>
                    match toScalar? cv with
                    | some sc => collect_clients products_list rest (setAdd acc (some sc))
                    | none => none
            | none => collect_clients products_list rest acc
          else collect_clients products_list rest acc

/-- The validation loop of `group_similar_products` (lines 414-423): keep
a proposed group exactly when its recomputed distinct-client count is at
least 2; the group object itself is appended unchanged.  `none` models an
exception inside the loop (non-dict group, bad `product_ids`), caught by
the surrounding `except`. -/
def validate_groups (products_list : List JObj) : List JValue → Option (List JValue)
  | [] => some []
  | g :: gs =>
      match g with
      | .obj gkvs =>
          match pyIterList? ((lookupL gkvs "product_ids").getD (.arr [])) with
          | none => none
          | some pids =>
              match collect_clients products_list pids [] with
              | none => none
              | some clients =>
                  match validate_groups products_list gs with
                  | none => none
                  | some vg => some (if 2 ≤ clients.length then g :: vg else vg)
      | _ => none

/-- `group_similar_products` (lines 329-428). -/
def group_similar_products (configured : Bool) (products_list : List JObj)
    (resp : LLMResp) (jsonParse : String → Except String JValue) : JValue :=
  if configured then
    if products_list.isEmpty then .obj [("groups", .arr [])]
    else
      match resp with
      | .raises e => .obj [("error", .str e), ("groups", .arr [])]
      | .returns t =>
          match jsonParse (strip_markdown_fences t) with
          | .error e => .obj [("error", .str e), ("groups", .arr [])]
          | .ok v =>
              match v with
              | .obj kvs =>
                  match pyIterList? ((lookupL kvs "groups").getD (.arr [])) with
                  | none => .obj [("error", .str "TypeError"), ("groups", .arr [])]
                  | some gs =>
                      match validate_groups products_list gs with
                      | some vg => .obj [("groups", .arr vg)]
                      | none => .obj [("error", .str "TypeError"), ("groups", .arr [])]
              | _ => .obj [("error", .str "AttributeError"), ("groups", .arr [])]
  else .obj [("error", .str "Azure OpenAI not configured")]

/-- The fallback of `compare_specifications_with_ai` (line 654). -/
def compare_specs_fallback (e : String) : JValue :=
  .obj [("error", .str ("Fehler beim Vergleichen der Spezifikationen: " ++ e)),
        ("comparisons", .arr [])]

/-- The expected output keys of `compare_specifications_with_ai` as given
by its own docstring (lines 576-593): a `summary` string and a
`comparisons` array. -/
def compare_specs_doc_keys : List String := ["summary", "comparisons"]

/-- `compare_specifications_with_ai` (lines 571-654). -/
def compare_specifications_with_ai (configured : Bool) (resp : LLMResp)
    (jsonParse : String → Except String JValue) : JValue :=
  if configured then
    match resp with
    | .raises e => compare_specs_fallback e
    | .returns t =>
        match jsonParse (strip_markdown_fences t) with
        | .ok v =>
            match v with
            | .obj kvs =>
                .obj (setdefaultAll kvs [("summary", .str ""), ("comparisons", .arr [])])
            | _ => compare_specs_fallback "AttributeError"
        | .error e => compare_specs_fallback e
  else
    .obj [("error", .str "Azure OpenAI credentials not configured"),
          ("comparisons", .arr [])]

/-! ## Multi-document tender merge (src/page_modules/tender_analysis.py)

`_merge_tender_analyses` (lines 181-224) merges the per-document results
of `analyze_tender_with_fields`.  A result dict is modelled by its
consumed projections: `result.get("analysis", {}).get("extracted", {})`
(a JSON object), `...get("german_summary", "")`, `...get("notes", "")`
and `result.get("file_name", "Document")`. -/

/-- Python `v == "lit"` for a JSON value against a string literal. -/
def pyEqStr (v : JValue) (s : String) : Bool :=
  match v with
  | .str s' => s' == s
  | _ => false

/-- One per-document analysis result as consumed by the merge. -/
structure TenderDocRes where
  file_name : Option String
  extracted : JObj
  german_summary : String
  notes : String

/-- The field update of the merge loop (lines 196-198): overwrite when the
current value is missing, falsy, or equal to the sentinel
`"Nicht angegeben"`. -/
def fillField (acc : JObj) (f : String) (v : JValue) : JObj :=
  match lookupL acc f with
  | none => setKeyD acc f v
  | some cur =>
      if pyFalsy cur || pyEqStr cur "Nicht angegeben" then setKeyD acc f v else acc

/-- Merge one later document's extracted fields into the accumulator
(the inner loop of lines 195-198). -/
def mergeDocFields (acc : JObj) (ext : JObj) : JObj :=
  ext.foldl (fun a p => fillField a p.1 p.2) acc

/-- The narrative-field concatenation loops (lines 201-218): strip, skip
empty, label with the source file name, collect. -/
def labeledParts (results : List TenderDocRes) (proj : TenderDocRes → String) :
    List String :=
  results.foldl
    (fun acc r =>
      let s := pyStrip (proj r)
      if s ≠ "" then acc ++ ["[" ++ r.file_name.getD "Document" ++ "] " ++ s]
      else acc)
    []

/-- `_merge_tender_analyses` (lines 181-224): returns the merged
`extracted` map, the merged `german_summary` and the merged `notes`. -/
def _merge_tender_analyses (results : List TenderDocRes) : JObj × String × String :=
  match results with
  | [] => ([], "", "")
  | r0 :: rest =>
      let merged_extracted := rest.foldl (fun a r => mergeDocFields a r.extracted) r0.extracted
      let summaries := labeledParts results (fun r => r.german_summary)
      let merged_summary := if summaries.isEmpty then "" else String.intercalate "\n\n" summaries
      let notes_list := labeledParts results (fun r => r.notes)
      let merged_notes := if notes_list.isEmpty then "" else String.intercalate "\n\n" notes_list
      (merged_extracted, merged_summary, merged_notes)

/-- A value that stops the merge from overwriting: non-empty (truthy) and
not the `"Nicht angegeben"` sentinel.  This is the specification's
"non-empty, non-sentinel value". -/
def goodVal (v : JValue) : Bool :=
  !(pyFalsy v) && !(pyEqStr v "Nicht angegeben")

/-- The sequence of values that the documents provide for field `f`, in
document order. -/
def fieldValues (results : List TenderDocRes) (f : String) : List JValue :=
  results.filterMap (fun r => lookupL r.extracted f)

/-- Reference fold for the merged value of one field: a good value, once
present, is kept; otherwise the latest value wins. -/
def specFold (cur : Option JValue) (vs : List JValue) : Option JValue :=
  vs.foldl
    (fun c v =>
      match c with
      | none => some v
      | some c' => if goodVal c' then some c' else some v)
    cur

/-- The spec-level merged value of a field: the first non-empty,
non-sentinel value across the documents if one exists, otherwise the last
provided value. -/
def mergedFieldSpec (results : List TenderDocRes) (f : String) : Option JValue :=
  optOr ((fieldValues results f).find? goodVal) (fieldValues results f).getLast?

/-- Spec-level narrative concatenation: the non-empty stripped texts, each
prefixed with its source label, joined by blank lines. -/
def labeledPartsSpec (results : List TenderDocRes) (proj : TenderDocRes → String) :
    List String :=
  results.filterMap
    (fun r =>
      let s := pyStrip (proj r)
      if s = "" then none else some ("[" ++ r.file_name.getD "Document" ++ "] " ++ s))

/-! ## Lemmas about the tender merge -/

/-- The per-field effect of merging a single later value. -/
def mergeStep (cur : Option JValue) (vo : Option JValue) : Option JValue :=
  match vo with
  | none => cur
  | some v =>
      match cur with
      | none => some v
      | some c => if goodVal c then some c else some v

theorem goodVal_false_iff (v : JValue) :
    goodVal v = false ↔ (pyFalsy v || pyEqStr v "Nicht angegeben") = true := by
  unfold goodVal
  cases h1 : pyFalsy v <;> cases h2 : pyEqStr v "Nicht angegeben" <;> simp

theorem lookupL_fillField_none (acc : JObj) (f' : String) (v : JValue) (f : String)
    (hcur : lookupL acc f' = none) :
    lookupL (fillField acc f' v) f = if f = f' then some v else lookupL acc f := by
  unfold fillField
  rw [hcur]
  show lookupL (setKeyD acc f' v) f = _
  rw [lookupL_setKeyD]

theorem lookupL_fillField_bad (acc : JObj) (f' : String) (v : JValue) (f : String)
    (cur : JValue) (hcur : lookupL acc f' = some cur) (hbad : goodVal cur = false) :
    lookupL (fillField acc f' v) f = if f = f' then some v else lookupL acc f := by
  unfold fillField
  rw [hcur]
  show lookupL (if (pyFalsy cur || pyEqStr cur "Nicht angegeben") = true
      then setKeyD acc f' v else acc) f = _
  rw [if_pos ((goodVal_false_iff cur).mp hbad), lookupL_setKeyD]

theorem lookupL_fillField_good (acc : JObj) (f' : String) (v : JValue) (f : String)
    (cur : JValue) (hcur : lookupL acc f' = some cur) (hgood : goodVal cur = true) :
    lookupL (fillField acc f' v) f = lookupL acc f := by
  unfold fillField
  rw [hcur]
  show lookupL (if (pyFalsy cur || pyEqStr cur "Nicht angegeben") = true
      then setKeyD acc f' v else acc) f = _
  have hcond : (pyFalsy cur || pyEqStr cur "Nicht angegeben") = false := by
    by_contra hc
    rw [Bool.not_eq_false] at hc
    rw [(goodVal_false_iff cur).mpr hc] at hgood
    exact Bool.false_ne_true hgood
  rw [hcond]
  simp

theorem lookupL_fillField_other (acc : JObj) (f' : String) (v : JValue) (f : String)
    (hne : f ≠ f') :
    lookupL (fillField acc f' v) f = lookupL acc f := by
  cases hcur : lookupL acc f' with
  | none => rw [lookupL_fillField_none acc f' v f hcur, if_neg hne]
  | some cur =>
      cases hg : goodVal cur with
      | false => rw [lookupL_fillField_bad acc f' v f cur hcur hg, if_neg hne]
      | true => exact lookupL_fillField_good acc f' v f cur hcur hg

theorem lookupL_mergeDocFields_not_mem (ext : JObj) (acc : JObj) (f : String)
    (hf : f ∉ ext.map Prod.fst) :
    lookupL (mergeDocFields acc ext) f = lookupL acc f := by
  induction ext generalizing acc with
  | nil => rfl
  | cons p rest ih =>
      obtain ⟨k, w⟩ := p
      simp only [List.map_cons, List.mem_cons] at hf
      push_neg at hf
      have hstep : mergeDocFields acc ((k, w) :: rest) =
          mergeDocFields (fillField acc k w) rest := rfl
      rw [hstep, ih (fillField acc k w) hf.2]
      exact lookupL_fillField_other acc k w f hf.1

theorem lookupL_mergeDocFields (ext : JObj) (acc : JObj) (f : String)
    (hnd : (ext.map Prod.fst).Nodup) :
    lookupL (mergeDocFields acc ext) f = mergeStep (lookupL acc f) (lookupL ext f) := by
  induction ext generalizing acc with
  | nil => rfl
  | cons p rest ih =>
      obtain ⟨k, w⟩ := p
      simp only [List.map_cons, List.nodup_cons] at hnd
      have hstep : mergeDocFields acc ((k, w) :: rest) =
          mergeDocFields (fillField acc k w) rest := rfl
      by_cases hk : k = f
      · subst hk
        rw [hstep, lookupL_mergeDocFields_not_mem rest (fillField acc k w) k hnd.1]
        simp only [lookupL_cons, if_pos rfl]
        cases hcur : lookupL acc k with
        | none =>
            rw [lookupL_fillField_none acc k w k hcur, if_pos rfl]
            rfl
        | some cur =>
            cases hg : goodVal cur with
            | false =>
                rw [lookupL_fillField_bad acc k w k cur hcur hg, if_pos rfl]
                show _ = if goodVal cur = true then some cur else some w
                rw [hg]
                simp
            | true =>
                rw [lookupL_fillField_good acc k w k cur hcur hg, hcur]
                show _ = if goodVal cur = true then some cur else some w
                rw [hg]
                simp
      · rw [hstep, ih (fillField acc k w) hnd.2]
        rw [lookupL_fillField_other acc k w f (fun h => hk h.symm)]
        simp only [lookupL_cons, hk, if_false]

theorem lookupL_merge_fold (rs : List TenderDocRes) (acc : JObj) (f : String)
    (hnd : ∀ r ∈ rs, (r.extracted.map Prod.fst).Nodup) :
    lookupL (rs.foldl (fun a r => mergeDocFields a r.extracted) acc) f =
      specFold (lookupL acc f) (fieldValues rs f) := by
  induction rs generalizing acc with
  | nil => rfl
  | cons r rest ih =>
      have hr := hnd r (List.mem_cons_self r rest)
      have hrest : ∀ x ∈ rest, (x.extracted.map Prod.fst).Nodup :=
        fun x hx => hnd x (List.mem_cons_of_mem r hx)
      rw [List.foldl_cons, ih (mergeDocFields acc r.extracted) hrest]
      rw [lookupL_mergeDocFields r.extracted acc f hr]
      unfold fieldValues
      rw [List.filterMap_cons]
      cases hv : lookupL r.extracted f with
      | none => rfl
      | some v =>
          show specFold (mergeStep (lookupL acc f) (some v)) _ = _
          cases hcur : lookupL acc f with
          | none => rfl
          | some c =>
              show specFold (if goodVal c then some c else some v) _ = _
              have hcons : specFold (some c)
                  (v :: rest.filterMap (fun x => lookupL x.extracted f)) =
                  specFold (if goodVal c then some c else some v)
                    (rest.filterMap (fun x => lookupL x.extracted f)) := by
                unfold specFold
                rw [List.foldl_cons]
              rw [hcons]

theorem list_getLast?_cons (vs : List JValue) (v : JValue) :
    (v :: vs).getLast? = some (vs.getLastD v) := by
  induction vs generalizing v with
  | nil => rfl
  | cons w vs ih =>
      rw [List.getLast?_cons_cons, ih w, List.getLastD_cons]

theorem specFold_some (vs : List JValue) (v : JValue) :
    specFold (some v) vs =
      if goodVal v then some v
      else optOr (vs.find? goodVal) (some (vs.getLastD v)) := by
  induction vs generalizing v with
  | nil =>
      by_cases hg : goodVal v = true <;> simp [specFold, hg]
  | cons w vs ih =>
      have hcons : specFold (some v) (w :: vs) =
          specFold (if goodVal v then some v else some w) vs := by
        unfold specFold
        rw [List.foldl_cons]
      by_cases hg : goodVal v = true
      · rw [hcons, if_pos hg, ih v, if_pos hg, if_pos hg]
      · rw [hcons, if_neg hg, ih w, if_neg hg]
        rw [List.find?_cons]
        by_cases hw : goodVal w = true
        · simp [hw, list_getLast?_cons, List.getLastD_eq_getLast?]
        · simp [hw, list_getLast?_cons, List.getLastD_cons,
            List.getLastD_eq_getLast?]

theorem specFold_none_char (vs : List JValue) :
    specFold none vs = optOr (vs.find? goodVal) vs.getLast? := by
  cases vs with
  | nil => rfl
  | cons v vs =>
      have hcons : specFold (none : Option JValue) (v :: vs) = specFold (some v) vs := by
        unfold specFold
        rw [List.foldl_cons]
      rw [hcons, specFold_some, List.find?_cons, list_getLast?_cons]
      by_cases hg : goodVal v = true
      · simp [hg]
      · simp [hg, List.getLastD_eq_getLast?]

theorem labeledParts_eq_spec (results : List TenderDocRes) (proj : TenderDocRes → String) :
    labeledParts results proj = labeledPartsSpec results proj := by
  have aux : ∀ (rs : List TenderDocRes) (acc : List String),
      rs.foldl
        (fun acc r =>
          let s := pyStrip (proj r)
          if s ≠ "" then acc ++ ["[" ++ r.file_name.getD "Document" ++ "] " ++ s]
          else acc)
        acc =
      acc ++ rs.filterMap
        (fun r =>
          let s := pyStrip (proj r)
          if s = "" then none
          else some ("[" ++ r.file_name.getD "Document" ++ "] " ++ s)) := by
    intro rs
    induction rs with
    | nil => intro acc; simp
    | cons r rest ih =>
        intro acc
        rw [List.foldl_cons, List.filterMap_cons]
        by_cases hs : pyStrip (proj r) = ""
        · simp only [hs, ne_eq, not_true_eq_false, if_false, ite_true]
          exact ih acc
        · simp only [hs, ne_eq, not_false_eq_true, if_true, ite_false]
          rw [ih (acc ++ [_])]
          simp
  unfold labeledParts labeledPartsSpec
  rw [aux results []]
  simp

/-! ## Lemmas about the product-group validation -/

/-- The product ids proposed by one group object, as read by the source
(`group.get("product_ids", [])`). -/
def pidsOfGroup (g : JValue) : List JValue :=
  match g with
  | .obj gkvs =>
      match (lookupL gkvs "product_ids").getD (.arr []) with
      | .arr xs => xs
      | _ => []
  | _ => []

/-- Spec-level recomputation: the `client_name` values (missing modelled
as `none`) of the in-range products referenced by the proposed ids, in
order, with multiplicity.  (Used only for well-formed inputs, where every
present client value is hashable.) -/
def clientRefs (products_list : List JObj) : List JValue → List (Option JScalar)
  | [] => []
  | pv :: rest =>
      match pyIndex? pv with
      | none => clientRefs products_list rest
      | some pid =>
          if 0 ≤ pid then
            match products_list[pid.toNat]? with
            | some prod =>
                (match lookupL prod "client_name" with
                 | none => none
                 | some cv => toScalar? cv) :: clientRefs products_list rest
            | none => clientRefs products_list rest
          else clientRefs products_list rest

/-- The recomputed number of distinct clients referenced by a group. -/
def distinctClientCount (products_list : List JObj) (g : JValue) : Nat :=
  ((clientRefs products_list (pidsOfGroup g)).toFinset).card

/-- One proposed id is processable without an exception: it is an int
(or bool), and if it selects a product whose `client_name` is present,
that value is hashable. -/
def wfPid (products_list : List JObj) (pv : JValue) : Bool :=
  match pyIndex? pv with
  | some pid =>
      if 0 ≤ pid then
        match products_list[pid.toNat]? with
        | some prod =>
            match lookupL prod "client_name" with
            | some cv => (toScalar? cv).isSome
            | none => true
        | none => true
      else true
  | none => false

/-- A proposed group is processable without an exception: a JSON object
whose `product_ids` (defaulted to `[]`) is an array of processable ids. -/
def wfGroup (products_list : List JObj) (g : JValue) : Bool :=
  match g with
  | .obj gkvs =>
      match (lookupL gkvs "product_ids").getD (.arr []) with
      | .arr pids => pids.all (wfPid products_list)
      | _ => false
  | _ => false

theorem setAdd_toFinset (s : List (Option JScalar)) (x : Option JScalar) :
    (setAdd s x).toFinset = insert x s.toFinset := by
  unfold setAdd
  by_cases h : x ∈ s
  · rw [if_pos h]
    exact (Finset.insert_eq_self.mpr (List.mem_toFinset.mpr h)).symm
  · rw [if_neg h]
    simp

theorem setAdd_nodup (s : List (Option JScalar)) (x : Option JScalar)
    (h : s.Nodup) : (setAdd s x).Nodup := by
  unfold setAdd
  by_cases hm : x ∈ s
  · rw [if_pos hm]; exact h
  · rw [if_neg hm]; exact List.nodup_cons.mpr ⟨hm, h⟩

theorem collect_clients_spec (products_list : List JObj) (pids : List JValue) :
    ∀ acc : List (Option JScalar), pids.all (wfPid products_list) = true →
      ∃ res, collect_clients products_list pids acc = some res ∧
        res.toFinset = acc.toFinset ∪ (clientRefs products_list pids).toFinset ∧
        (acc.Nodup → res.Nodup) := by
  induction pids with
  | nil =>
      intro acc _
      exact ⟨acc, rfl, by simp [clientRefs], fun h => h⟩
  | cons pv rest ih =>
      intro acc hwf
      rw [List.all_cons, Bool.and_eq_true] at hwf
      obtain ⟨hpv, hrest⟩ := hwf
      cases hidx : pyIndex? pv with
      | none =>
          simp [wfPid, hidx] at hpv
      | some pid =>
          by_cases h0 : 0 ≤ pid
          · cases hprod : products_list[pid.toNat]? with
            | none =>
                have hstep : collect_clients products_list (pv :: rest) acc =
                    collect_clients products_list rest acc := by
                  simp only [collect_clients, hidx, h0, if_true, hprod]
                have hrefs : clientRefs products_list (pv :: rest) =
                    clientRefs products_list rest := by
                  simp only [clientRefs, hidx, h0, if_true, hprod]
                rw [hstep, hrefs]
                exact ih acc hrest
            | some prod =>
                cases hcv : lookupL prod "client_name" with
                | none =>
                    have hstep : collect_clients products_list (pv :: rest) acc =
                        collect_clients products_list rest (setAdd acc none) := by
                      simp only [collect_clients, hidx, h0, if_true, hprod, hcv]
                    have hrefs : clientRefs products_list (pv :: rest) =
                        none :: clientRefs products_list rest := by
                      simp only [clientRefs, hidx, h0, if_true, hprod, hcv]
                    obtain ⟨res, h1, h2, h3⟩ := ih (setAdd acc none) hrest
                    rw [hstep, hrefs]
                    refine ⟨res, h1, ?_, fun hnd => h3 (setAdd_nodup acc none hnd)⟩
                    rw [h2, setAdd_toFinset, List.toFinset_cons,
                      Finset.insert_union, Finset.union_insert]
                | some cv =>
                    simp only [wfPid, hidx, h0, if_true, hprod, hcv] at hpv
                    obtain ⟨sc, hsc⟩ := Option.isSome_iff_exists.mp hpv
                    have hstep : collect_clients products_list (pv :: rest) acc =
                        collect_clients products_list rest (setAdd acc (some sc)) := by
                      simp only [collect_clients, hidx, h0, if_true, hprod, hcv, hsc]
                    have hrefs : clientRefs products_list (pv :: rest) =
                        (some sc) :: clientRefs products_list rest := by
                      simp only [clientRefs, hidx, h0, if_true, hprod, hcv, hsc]
                    obtain ⟨res, h1, h2, h3⟩ := ih (setAdd acc (some sc)) hrest
                    rw [hstep, hrefs]
                    refine ⟨res, h1, ?_, fun hnd => h3 (setAdd_nodup acc (some sc) hnd)⟩
                    rw [h2, setAdd_toFinset, List.toFinset_cons,
                      Finset.insert_union, Finset.union_insert]
          · have hstep : collect_clients products_list (pv :: rest) acc =
                collect_clients products_list rest acc := by
              simp only [collect_clients, hidx, h0, if_false]
            have hrefs : clientRefs products_list (pv :: rest) =
                clientRefs products_list rest := by
              simp only [clientRefs, hidx, h0, if_false]
            rw [hstep, hrefs]
            exact ih acc hrest

theorem validate_groups_eq_filter (products_list : List JObj) (gs : List JValue)
    (hwf : ∀ g ∈ gs, wfGroup products_list g = true) :
    validate_groups products_list gs =
      some (gs.filter (fun g => decide (2 ≤ distinctClientCount products_list g))) := by
  induction gs with
  | nil => rfl
  | cons g gs' ih =>
      have hg := hwf g (List.mem_cons_self g gs')
      have hgs' : ∀ x ∈ gs', wfGroup products_list x = true :=
        fun x hx => hwf x (List.mem_cons_of_mem g hx)
      cases g with
      | obj gkvs =>
          cases hpids : (lookupL gkvs "product_ids").getD (.arr []) with
          | arr pids =>
              simp only [wfGroup, hpids] at hg
              obtain ⟨res, h1, h2, h3⟩ := collect_clients_spec products_list pids [] hg
              have hres_nodup : res.Nodup := h3 List.nodup_nil
              have hlen : res.length = distinctClientCount products_list (.obj gkvs) := by
                have hcard : res.toFinset.card = res.length :=
                  List.toFinset_card_of_nodup hres_nodup
                rw [← hcard, h2]
                simp only [distinctClientCount, pidsOfGroup, hpids]
                simp
              have hstep : validate_groups products_list (JValue.obj gkvs :: gs') =
                  some (if 2 ≤ res.length
                    then JValue.obj gkvs ::
                      gs'.filter (fun g => decide (2 ≤ distinctClientCount products_list g))
                    else gs'.filter (fun g => decide (2 ≤ distinctClientCount products_list g))) := by
                simp only [validate_groups, hpids, pyIterList?, h1, ih hgs']
              rw [hstep, List.filter_cons]
              by_cases hc : 2 ≤ distinctClientCount products_list (.obj gkvs)
              · rw [if_pos (hlen ▸ hc)]
                simp [hc]
              · rw [if_neg (fun hcon => hc (hlen ▸ hcon))]
                simp [hc]
          | null => simp [wfGroup, hpids] at hg
          | bool b => simp [wfGroup, hpids] at hg
          | num n => simp [wfGroup, hpids] at hg
          | str s => simp [wfGroup, hpids] at hg
          | obj kvs2 => simp [wfGroup, hpids] at hg
      | null => simp [wfGroup] at hg
      | bool b => simp [wfGroup] at hg
      | num n => simp [wfGroup] at hg
      | str s => simp [wfGroup] at hg
      | arr xs => simp [wfGroup] at hg

/-! ## Lemmas about the invoice normalisation -/

theorem lookupL_eq_none_iff (o : JObj) (k : String) :
    lookupL o k = none ↔ k ∉ o.map Prod.fst := by
  induction o with
  | nil => simp
  | cons p rest ih =>
      obtain ⟨kp, vp⟩ := p
      by_cases hp : kp = k
      · subst hp
        simp
      · rw [List.map_cons, List.mem_cons]
        simp only [lookupL_cons, hp, if_false]
        rw [ih]
        constructor
        · intro h hcon
          rcases hcon with h1 | h1
          · exact hp h1.symm
          · exact h h1
        · intro h h1
          exact h (Or.inr h1)

theorem lookupL_isSome_iff (o : JObj) (k : String) :
    (lookupL o k).isSome = true ↔ k ∈ o.map Prod.fst := by
  rw [← not_iff_not]
  simp [Option.not_isSome_iff_eq_none, lookupL_eq_none_iff]

theorem invoice_item_defaults_keys (parsed : JObj) :
    (invoice_item_defaults parsed).map Prod.fst = invoice_entry_keys := rfl

/-- Whether a JSON value is an object (a Python mapping). -/
def JValue.isObj : JValue → Bool
  | .obj _ => true
  | _ => false

theorem normalize_invoice_item_entry_keys (parsed : JObj) (it n : JValue)
    (h : normalize_invoice_item parsed it = some n) :
    ∃ ekvs, n = .obj ekvs ∧
      (∀ k ∈ invoice_entry_keys, (lookupL ekvs k).isSome) ∧
      (∀ k, (lookupL ekvs k).isSome →
        k ∈ invoice_entry_keys ∨ (lookupJ it k).isSome) := by
  unfold normalize_invoice_item at h
  by_cases hf : pyFalsy it = true
  · rw [if_pos hf] at h
    have hn : n = .obj (invoice_item_defaults parsed) := by
      injection h with h'
      exact h'.symm
    refine ⟨invoice_item_defaults parsed, hn, ?_, ?_⟩
    · intro k hk
      rw [lookupL_isSome_iff, invoice_item_defaults_keys]
      exact hk
    · intro k hk
      left
      rw [lookupL_isSome_iff, invoice_item_defaults_keys] at hk
      exact hk
  · rw [if_neg hf] at h
    cases it with
    | obj kvs =>
        have hn : n = .obj (pymerge (invoice_item_defaults parsed) kvs) := by
          injection h with h'
          exact h'.symm
        refine ⟨pymerge (invoice_item_defaults parsed) kvs, hn, ?_, ?_⟩
        · intro k hk
          rw [lookupL_pymerge]
          cases hkv : lookupL kvs k with
          | some w => simp
          | none =>
              simp only [optOr_none]
              rw [lookupL_isSome_iff, invoice_item_defaults_keys]
              exact hk
        · intro k hk
          rw [lookupL_pymerge] at hk
          cases hkv : lookupL kvs k with
          | some w =>
              right
              simp [lookupJ, hkv]
          | none =>
              left
              rw [hkv, optOr_none, lookupL_isSome_iff,
                invoice_item_defaults_keys] at hk
              exact hk
    | null => exact absurd h (by simp)
    | bool b => exact absurd h (by simp)
    | num m => exact absurd h (by simp)
    | str s => exact absurd h (by simp)
    | arr xs => exact absurd h (by simp)

theorem normalize_invoice_items_mem (parsed : JObj) :
    ∀ (items ns : List JValue), normalize_invoice_items parsed items = some ns →
      ∀ n ∈ ns, ∃ it ∈ items, normalize_invoice_item parsed it = some n := by
  intro items
  induction items with
  | nil =>
      intro ns h n hn
      unfold normalize_invoice_items at h
      injection h with h'
      subst h'
      simp at hn
  | cons it rest ih =>
      intro ns h n hn
      unfold normalize_invoice_items at h
      cases hit : normalize_invoice_item parsed it with
      | none => rw [hit] at h; exact absurd h (by simp)
      | some m =>
          rw [hit] at h
          cases hrest : normalize_invoice_items parsed rest with
          | none => rw [hrest] at h; exact absurd h (by simp)
          | some ms =>
              rw [hrest] at h
              have hns : ns = m :: ms := by
                injection h with h'
                exact h'.symm
              subst hns
              rcases List.mem_cons.mp hn with rfl | hmem
              · exact ⟨it, List.mem_cons_self it rest, hit⟩
              · obtain ⟨it', hit', hx⟩ := ih ms hrest n hmem
                exact ⟨it', List.mem_cons_of_mem it hit', hx⟩

theorem normalize_invoice_items_total (parsed : JObj) :
    ∀ items : List JValue, (∀ it ∈ items, pyFalsy it = true ∨ it.isObj = true) →
      ∃ ns, normalize_invoice_items parsed items = some ns := by
  intro items
  induction items with
  | nil => intro _; exact ⟨[], rfl⟩
  | cons it rest ih =>
      intro hall
      have hit := hall it (List.mem_cons_self it rest)
      have hrest := fun x hx => hall x (List.mem_cons_of_mem it hx)
      obtain ⟨ns, hns⟩ := ih hrest
      have hsome : ∃ m, normalize_invoice_item parsed it = some m := by
        unfold normalize_invoice_item
        rcases hit with hf | hob
        · exact ⟨_, by rw [if_pos hf]⟩
        · by_cases hf : pyFalsy it = true
          · exact ⟨_, by rw [if_pos hf]⟩
          · cases it with
            | obj kvs => exact ⟨_, by rw [if_neg hf]⟩
            | null => simp [JValue.isObj] at hob
            | bool b => simp [JValue.isObj] at hob
            | num m => simp [JValue.isObj] at hob
            | str s => simp [JValue.isObj] at hob
            | arr xs => simp [JValue.isObj] at hob
      obtain ⟨m, hm⟩ := hsome
      refine ⟨m :: ns, ?_⟩
      unfold normalize_invoice_items
      rw [hm, hns]

/-! ## Lemmas about the OCR temp-image effects -/

theorem mem_of_mem_enumFrom {α : Type} :
    ∀ (l : List α) (n : Nat) (pr : Nat × α), pr ∈ l.enumFrom n → pr.2 ∈ l := by
  intro l
  induction l with
  | nil => intro n pr h; simp [List.enumFrom] at h
  | cons a l ih =>
      intro n pr h
      rw [List.enumFrom] at h
      rcases List.mem_cons.mp h with rfl | hmem
      · exact List.mem_cons_self a l
      · exact List.mem_cons_of_mem a (ih (n + 1) pr hmem)

theorem ocrPage_snd_eq_nil (avail : Bool) (n : Nat) (p : PdfPage)
    (h : avail = false ∨ p.deepseek ≠ .raisesAfterSave) :
    (ocrPage avail n p).2 = [] := by
  unfold ocrPage
  rcases h with rfl | hds
  · rfl
  · cases hd : p.deepseek with
    | raisesBeforeSave => cases avail <;> rfl
    | raisesAfterSave => exact absurd hd hds
    | returns s =>
        cases avail
        · rfl
        · by_cases hs : s = "" <;> simp [hs]

theorem ocr_leaked_nil (avail : Bool) (doc : PdfDoc)
    (h : ∀ p ∈ doc.pages, p.deepseek ≠ .raisesAfterSave) :
    (_extract_text_with_ocr avail doc).2 = [] := by
  unfold _extract_text_with_ocr
  simp only []
  rw [List.flatten_eq_nil_iff]
  intro l hl
  rw [List.mem_map] at hl
  obtain ⟨part, hpart, rfl⟩ := hl
  rw [List.mem_map] at hpart
  obtain ⟨pr, hpr, rfl⟩ := hpart
  have hpage : pr.2 ∈ doc.pages := mem_of_mem_enumFrom doc.pages 0 pr hpr
  exact ocrPage_snd_eq_nil avail (pr.1 + 1) pr.2 (Or.inr (h pr.2 hpage))

/-! ## Claim theorems -/

/-- C7 (amended): for every raw model response, both response-cleaning
variants select the content to parse as follows: if the trimmed text
contains a json-marked fence, the segment between the first and second
occurrences of the json marker (to the end if there is no second),
truncated at the first closing fence it contains, is used; otherwise, if
any fence is present, the content between the first fence and the next
one (to the end if none) is used; otherwise the full trimmed text is
used. -/
theorem C7_fence_selection_amended (raw : String) :
    strip_markdown_fences raw = fence_selection_amended raw ∧
    strip_markdown_fences_b raw = fence_selection_amended raw :=
  ⟨strip_markdown_fences_eq_amended raw, strip_markdown_fences_b_eq_amended raw⟩

/-- C7 counterexample: on the response `a```jsonBC`````jsonD` the source
cleaning keeps `BC``` ` while the claim's "content between that fence and
the next closing fence" rule yields `BC`, so the claim as stated is false. -/
theorem C7_counterexample_literal_selection :
    strip_markdown_fences "a```jsonBC`````jsonD" = "BC``" ∧
    fence_selection_literal "a```jsonBC`````jsonD" = "BC" ∧
    strip_markdown_fences "a```jsonBC`````jsonD" ≠
      fence_selection_literal "a```jsonBC`````jsonD" :=
  ⟨by decide, by decide, by decide⟩

/-- C10: with the Azure client unconfigured, `analyze_contract` returns an
object whose only key is `error` — none of its task-schema keys are
present — whereas its parse-failure fallback carries every schema key. -/
theorem C10_analyze_contract_unconfigured_error_only (resp : LLMResp)
    (jsonParse : String → Except String JValue) (e : String) :
    analyze_contract false resp jsonParse =
      .obj [("error", .str azure_creds_error_msg)] ∧
    (∀ k ∈ contract_schema_keys,
      lookupJ (analyze_contract false resp jsonParse) k = none) ∧
    (∀ k ∈ contract_schema_keys,
      (lookupJ (analyze_contract_fallback e) k).isSome) := by
  refine ⟨rfl, ?_, ?_⟩
  · intro k hk
    fin_cases hk <;> rfl
  · intro k hk
    fin_cases hk <;> rfl

/-- C2 (code bug): at a failing input — configured client, response text
that is not JSON — `compare_specifications_with_ai` returns its fallback,
which omits the `summary` key although the function's own documented
output schema contains it (and the success path always sets it). -/
theorem C2_compare_specs_fallback_missing_summary :
    compare_specifications_with_ai true (.returns "not json")
        (fun _ => .error "Expecting value: line 1 column 1 (char 0)") =
      .obj [("error", .str "Fehler beim Vergleichen der Spezifikationen: Expecting value: line 1 column 1 (char 0)"),
            ("comparisons", .arr [])] ∧
    lookupJ (compare_specifications_with_ai true (.returns "not json")
        (fun _ => .error "Expecting value: line 1 column 1 (char 0)")) "summary" = none ∧
    "summary" ∈ compare_specs_doc_keys ∧
    (∀ kvs : JObj,
      lookupJ (.obj (setdefaultAll kvs [("summary", .str ""), ("comparisons", .arr [])]))
        "summary" ≠ none) := by
  refine ⟨rfl, rfl, by decide, ?_⟩
  intro kvs
  show lookupL (setdefaultAll kvs [("summary", .str ""), ("comparisons", .arr [])])
      "summary" ≠ none
  rw [lookupL_setdefaultAll]
  cases h : lookupL kvs "summary" <;> simp

/-- C9: whenever the fence-stripped model response parses as JSON,
`extract_client_and_products` returns the parsed value verbatim — no
defaults inserted and no keys removed — so a success-path result may lack
any of the keys `client_name`, `products`, `contract_type`. -/
theorem C9_extract_client_products_verbatim (t : String)
    (jsonParse : String → Except String JValue) (v : JValue)
    (hparse : jsonParse (strip_markdown_fences t) = .ok v) :
    extract_client_and_products true (.returns t) jsonParse = v := by
  show (match jsonParse (strip_markdown_fences t) with
    | .ok v => v
    | .error e => extract_client_and_products_fallback e) = v
  rw [hparse]

/-- Witness for C9: at the concrete parser returning the empty object, the
result is the empty object, which indeed lacks all three schema keys. -/
theorem C9_witness :
    ((fun _ : String => (Except.ok (JValue.obj []) : Except String JValue))
        (strip_markdown_fences "ok") = .ok (.obj [])) ∧
    extract_client_and_products true (.returns "ok")
      (fun _ => .ok (.obj [])) = .obj [] ∧
    lookupJ (JValue.obj []) "client_name" = none ∧
    lookupJ (JValue.obj []) "products" = none ∧
    lookupJ (JValue.obj []) "contract_type" = none :=
  ⟨rfl,
   C9_extract_client_products_verbatim "ok" (fun _ => .ok (.obj [])) (.obj []) rfl,
   rfl, rfl, rfl⟩

/-- C1 counterexample: on PDF bytes that `fitz.open` cannot open, the
exception propagates out of `extract_text_from_pdf` (the `try`/`finally`
at lines 62-77 has no `except`), so the function does not return a
string. -/
theorem C1_counterexample_unopenable_pdf_raises :
    (extract_text_from_pdf false (fun _ => .error "cannot open broken document")
        (.bytes [37])).1 = .error "cannot open broken document" ∧
    ¬ ∃ s, (extract_text_from_pdf false (fun _ => .error "cannot open broken document")
        (.bytes [37])).1 = .ok s := by
  constructor
  · rfl
  · rintro ⟨s, hs⟩
    rw [show (extract_text_from_pdf false
        (fun _ => .error "cannot open broken document") (.bytes [37])).1 =
        .error "cannot open broken document" from rfl] at hs
    exact Except.noConfusion hs

/-- C1 (amended): `extract_text_from_pdf` returns a string (never raises)
for every empty upload, unreadable stream, attribute-less object, and any
byte blob that `fitz.open` accepts — including image-only PDFs, whose OCR
failures degrade to sentinel strings; only a blob whose open raises
propagates the exception. -/
theorem C1_extract_text_total_when_openable (avail : Bool)
    (fitzOpen : List Nat → Except String PdfDoc) (file : UploadInput)
    (h : ∀ b, obtain_pdf_bytes file = .ok b → b ≠ [] → ∃ doc, fitzOpen b = .ok doc) :
    ∃ s, (extract_text_from_pdf avail fitzOpen file).1 = .ok s := by
  cases file with
  | streamRaises e => exact ⟨_, rfl⟩
  | inert => exact ⟨_, rfl⟩
  | bytes b =>
      by_cases hbe : b = []
      · subst hbe
        exact ⟨_, rfl⟩
      · obtain ⟨doc, hdoc⟩ := h b rfl hbe
        have hbf : b.isEmpty = false := by
          cases b
          · exact absurd rfl hbe
          · rfl
        simp only [extract_text_from_pdf, obtain_pdf_bytes, hbf, hdoc]
        by_cases hws : pyStrip (String.join (doc.pages.map (fun p => p.nativeText))) = "" <;>
          simp [hws]
  | stream b =>
      by_cases hbe : b = []
      · subst hbe
        exact ⟨_, rfl⟩
      · obtain ⟨doc, hdoc⟩ := h b rfl hbe
        have hbf : b.isEmpty = false := by
          cases b
          · exact absurd rfl hbe
          · rfl
        simp only [extract_text_from_pdf, obtain_pdf_bytes, hbf, hdoc]
        by_cases hws : pyStrip (String.join (doc.pages.map (fun p => p.nativeText))) = "" <;>
          simp [hws]

/-- Witness for C1 (amended): a one-page PDF with native text "Hello"
yields a returned string. -/
theorem C1_witness :
    (∀ b, obtain_pdf_bytes (.bytes [1]) = .ok b → b ≠ [] →
      ∃ doc, (fun _ : List Nat =>
        (Except.ok (⟨[⟨"Hello", .returns "", some ""⟩]⟩ : PdfDoc) :
          Except String PdfDoc)) b = .ok doc) ∧
    ∃ s, (extract_text_from_pdf false
      (fun _ : List Nat =>
        (Except.ok (⟨[⟨"Hello", .returns "", some ""⟩]⟩ : PdfDoc) :
          Except String PdfDoc))
      (.bytes [1])).1 = .ok s :=
  ⟨fun _ _ _ => ⟨_, rfl⟩,
   C1_extract_text_total_when_openable false _ (.bytes [1])
     (fun _ _ _ => ⟨_, rfl⟩)⟩

/-- C4: within `extract_text_from_pdf`, for any upload whose bytes are
non-empty and open successfully, the OCR fallback runs if and only if the
concatenation of the per-page native text (in document order) is empty or
all-whitespace, and it never runs more than once. -/
theorem C4_ocr_iff_native_whitespace (avail : Bool)
    (fitzOpen : List Nat → Except String PdfDoc) (file : UploadInput)
    (b : List Nat) (doc : PdfDoc)
    (hb : obtain_pdf_bytes file = .ok b) (hne : b ≠ [])
    (hopen : fitzOpen b = .ok doc) :
    ((extract_text_from_pdf avail fitzOpen file).2.ocrCalls = 1 ↔
        ∀ c ∈ (String.join (doc.pages.map (fun p => p.nativeText))).data,
          c.isWhitespace) ∧
    (extract_text_from_pdf avail fitzOpen file).2.ocrCalls ≤ 1 := by
  have hbf : b.isEmpty = false := by
    cases b
    · exact absurd rfl hne
    · rfl
  simp only [extract_text_from_pdf, hb, hbf, hopen]
  by_cases hws : pyStrip (String.join (doc.pages.map (fun p => p.nativeText))) = ""
  · simp only [hws, if_true, if_pos]
    constructor
    · exact iff_of_true rfl ((pyStrip_eq_empty_iff _).mp hws)
    · exact le_refl 1
  · simp only [hws, if_false, if_neg]
    constructor
    · exact iff_of_false (by simp)
        (fun hall => hws ((pyStrip_eq_empty_iff _).mpr hall))
    · exact Nat.zero_le 1

/-- Witness for C4: an all-whitespace native layer triggers the OCR
fallback exactly once; a page with visible native text never does. -/
theorem C4_witness :
    (obtain_pdf_bytes (.bytes [1]) = .ok [1] ∧ ([1] : List Nat) ≠ [] ∧
      (fun _ : List Nat =>
        (Except.ok (⟨[⟨" \n", .returns "", some "scanned"⟩]⟩ : PdfDoc) :
          Except String PdfDoc)) [1] =
        .ok ⟨[⟨" \n", .returns "", some "scanned"⟩]⟩) ∧
    (((extract_text_from_pdf false
        (fun _ : List Nat =>
          (Except.ok (⟨[⟨" \n", .returns "", some "scanned"⟩]⟩ : PdfDoc) :
            Except String PdfDoc))
        (.bytes [1])).2.ocrCalls = 1 ↔
      ∀ c ∈ (String.join ((⟨[⟨" \n", .returns "", some "scanned"⟩]⟩ :
          PdfDoc).pages.map (fun p => p.nativeText))).data, c.isWhitespace) ∧
      (extract_text_from_pdf false
        (fun _ : List Nat =>
          (Except.ok (⟨[⟨" \n", .returns "", some "scanned"⟩]⟩ : PdfDoc) :
            Except String PdfDoc))
        (.bytes [1])).2.ocrCalls ≤ 1) :=
  ⟨⟨rfl, by decide, rfl⟩,
   C4_ocr_iff_native_whitespace false _ (.bytes [1]) [1] _ rfl (by decide) rfl⟩

/-- C8 counterexample: with an image-only page whose DeepSeek inference
raises after the temp image was saved, the call returns with
`temp_page_1.png` still on disk. -/
theorem C8_counterexample_temp_image_leak :
    (extract_text_from_pdf true
      (fun _ : List Nat =>
        (Except.ok (⟨[⟨"", .raisesAfterSave, some "scanned text"⟩]⟩ : PdfDoc) :
          Except String PdfDoc))
      (.bytes [1])).2.leakedTempImages = ["temp_page_1.png"] ∧
    (["temp_page_1.png"] : List String) ≠ [] :=
  ⟨rfl, by decide⟩

/-- C8 (amended): the temporary PDF copy is removed on every exit path
(native success, OCR success, OCR failure, propagated open exception);
and when no page's DeepSeek inference raises after its temp image was
saved, no temporary file created by the call remains on disk. -/
theorem C8_temp_cleanup_unless_infer_raises (avail : Bool)
    (fitzOpen : List Nat → Except String PdfDoc) (file : UploadInput)
    (h : ∀ b doc, fitzOpen b = .ok doc →
      ∀ p ∈ doc.pages, p.deepseek ≠ .raisesAfterSave) :
    ((extract_text_from_pdf avail fitzOpen file).2.tmpPdfCreated = true →
      (extract_text_from_pdf avail fitzOpen file).2.tmpPdfRemoved = true) ∧
    (extract_text_from_pdf avail fitzOpen file).2.leakedTempImages = [] := by
  cases file with
  | streamRaises e => exact ⟨fun h' => h', rfl⟩
  | inert => exact ⟨fun h' => h', rfl⟩
  | bytes b =>
      by_cases hbe : b = []
      · subst hbe
        exact ⟨fun h' => h', rfl⟩
      · have hbf : b.isEmpty = false := by
          cases b
          · exact absurd rfl hbe
          · rfl
        cases hdoc : fitzOpen b with
        | error e =>
            simp only [extract_text_from_pdf, obtain_pdf_bytes, hbf, hdoc]
            exact ⟨fun _ => rfl, rfl⟩
        | ok doc =>
            simp only [extract_text_from_pdf, obtain_pdf_bytes, hbf, hdoc]
            by_cases hws :
                pyStrip (String.join (doc.pages.map (fun p => p.nativeText))) = ""
            · simp only [hws, if_true, if_pos]
              exact ⟨fun _ => rfl, ocr_leaked_nil avail doc (h b doc hdoc)⟩
            · simp only [hws, if_false, if_neg]
              exact ⟨fun _ => rfl, rfl⟩
  | stream b =>
      by_cases hbe : b = []
      · subst hbe
        exact ⟨fun h' => h', rfl⟩
      · have hbf : b.isEmpty = false := by
          cases b
          · exact absurd rfl hbe
          · rfl
        cases hdoc : fitzOpen b with
        | error e =>
            simp only [extract_text_from_pdf, obtain_pdf_bytes, hbf, hdoc]
            exact ⟨fun _ => rfl, rfl⟩
        | ok doc =>
            simp only [extract_text_from_pdf, obtain_pdf_bytes, hbf, hdoc]
            by_cases hws :
                pyStrip (String.join (doc.pages.map (fun p => p.nativeText))) = ""
            · simp only [hws, if_true, if_pos]
              exact ⟨fun _ => rfl, ocr_leaked_nil avail doc (h b doc hdoc)⟩
            · simp only [hws, if_false, if_neg]
              exact ⟨fun _ => rfl, rfl⟩

/-- Witness for C8 (amended): with a page whose DeepSeek attempt returns
text, the OCR run leaves nothing on disk and the temp PDF is removed. -/
theorem C8_witness :
    (∀ b doc,
      (fun _ : List Nat =>
        (Except.ok (⟨[⟨"", .returns "seen", some ""⟩]⟩ : PdfDoc) :
          Except String PdfDoc)) b = .ok doc →
      ∀ p ∈ doc.pages, p.deepseek ≠ DeepSeekOutcome.raisesAfterSave) ∧
    (((extract_text_from_pdf true
        (fun _ : List Nat =>
          (Except.ok (⟨[⟨"", .returns "seen", some ""⟩]⟩ : PdfDoc) :
            Except String PdfDoc))
        (.bytes [1])).2.tmpPdfCreated = true →
      (extract_text_from_pdf true
        (fun _ : List Nat =>
          (Except.ok (⟨[⟨"", .returns "seen", some ""⟩]⟩ : PdfDoc) :
            Except String PdfDoc))
        (.bytes [1])).2.tmpPdfRemoved = true) ∧
    (extract_text_from_pdf true
        (fun _ : List Nat =>
          (Except.ok (⟨[⟨"", .returns "seen", some ""⟩]⟩ : PdfDoc) :
            Except String PdfDoc))
        (.bytes [1])).2.leakedTempImages = []) :=
  ⟨fun b doc hdoc p hp => by
      injection hdoc with h'
      subst h'
      rcases List.mem_cons.mp hp with rfl | hmem
      · intro hcon
        exact DeepSeekOutcome.noConfusion hcon
      · simp at hmem,
   C8_temp_cleanup_unless_infer_raises true _ (.bytes [1])
     (fun b doc hdoc p hp => by
        injection hdoc with h'
        subst h'
        rcases List.mem_cons.mp hp with rfl | hmem
        · intro hcon
          exact DeepSeekOutcome.noConfusion hcon
        · simp at hmem)⟩

theorem clientRefs_nil_products (pids : List JValue) :
    clientRefs [] pids = [] := by
  induction pids with
  | nil => rfl
  | cons pv rest ih =>
      cases hidx : pyIndex? pv with
      | none => simp only [clientRefs, hidx, ih]
      | some pid =>
          by_cases h0 : 0 ≤ pid
          · simp only [clientRefs, hidx, h0, if_true, List.getElem?_nil, ih]
          · simp only [clientRefs, hidx, h0, if_false, ih]

/-- C3: `group_similar_products` recomputes, from the original indexed
product list, the distinct `client_name` values referenced by each
proposed group's `product_ids`, and keeps exactly the proposed groups
whose recomputed distinct-client count is at least 2; a retained group is
the proposed group object itself, unchanged. -/
theorem C3_group_similar_products_filter (products_list : List JObj)
    (t : String) (jsonParse : String → Except String JValue)
    (kvs : JObj) (gs : List JValue)
    (hparse : jsonParse (strip_markdown_fences t) = .ok (.obj kvs))
    (hgroups : (lookupL kvs "groups").getD (.arr []) = .arr gs)
    (hwf : ∀ g ∈ gs, wfGroup products_list g = true) :
    group_similar_products true products_list (.returns t) jsonParse =
      .obj [("groups",
        .arr (gs.filter (fun g => decide (2 ≤ distinctClientCount products_list g))))] ∧
    ∀ g ∈ gs.filter (fun g => decide (2 ≤ distinctClientCount products_list g)),
      g ∈ gs := by
  constructor
  · by_cases hp : products_list.isEmpty
    · have hfilters : gs.filter
          (fun g => decide (2 ≤ distinctClientCount products_list g)) = [] := by
        have hplnil : products_list = [] := List.isEmpty_iff.mp hp
        subst hplnil
        rw [List.filter_eq_nil_iff]
        intro g hg
        simp [distinctClientCount, clientRefs_nil_products]
      rw [hfilters]
      simp only [group_similar_products, hp, if_true]
    · simp only [group_similar_products, hp, if_false, hparse, hgroups,
        pyIterList?, validate_groups_eq_filter products_list gs hwf]
      simp
  · intro g hg
    exact (List.mem_filter.mp hg).1

/-- Concrete product list for the C3 witness: clients "A", "A", "B". -/
def c3wProducts : List JObj :=
  [[("client_name", .str "A")],
   [("client_name", .str "A")],
   [("client_name", .str "B")]]

/-- Concrete proposed groups for the C3 witness: ids 0 and 2 span two
clients; ids 0 and 1 share one client. -/
def c3wGroups : List JValue :=
  [.obj [("product_ids", .arr [.num 0, .num 2]),
         ("canonical_name", .str "Steel Rebar 10mm")],
   .obj [("product_ids", .arr [.num 0, .num 1]),
         ("canonical_name", .str "Concrete Mix")]]

/-- Concrete parsed model object for the C3 witness. -/
def c3wKvs : JObj := [("groups", .arr c3wGroups)]

/-- Witness for C3: at the concrete inputs, the group spanning clients
"A" and "B" is kept unchanged and the single-client group is dropped. -/
theorem C3_witness :
    ((fun _ : String => (Except.ok (JValue.obj c3wKvs) : Except String JValue))
        (strip_markdown_fences "resp") = .ok (.obj c3wKvs)) ∧
    ((lookupL c3wKvs "groups").getD (.arr []) = .arr c3wGroups) ∧
    (∀ g ∈ c3wGroups, wfGroup c3wProducts g = true) ∧
    (group_similar_products true c3wProducts (.returns "resp")
        (fun _ : String => (Except.ok (JValue.obj c3wKvs) : Except String JValue)) =
      .obj [("groups",
        .arr (c3wGroups.filter
          (fun g => decide (2 ≤ distinctClientCount c3wProducts g))))] ∧
      ∀ g ∈ c3wGroups.filter
          (fun g => decide (2 ≤ distinctClientCount c3wProducts g)),
        g ∈ c3wGroups) :=
  ⟨rfl, rfl, by decide,
   C3_group_similar_products_filter c3wProducts "resp"
     (fun _ : String => (Except.ok (JValue.obj c3wKvs) : Except String JValue))
     c3wKvs c3wGroups rfl rfl (by decide)⟩

/-- C5: `_merge_tender_analyses` merges the extracted field maps so that
for every field the first non-empty, non-sentinel value across the
documents wins, later documents only filling fields that are missing,
empty or `"Nicht angegeben"` (the last provided value standing when no
good value exists); `german_summary` and `notes` are concatenated across
documents with a per-document file-name label instead of being
overwritten. -/
theorem C5_merge_tender_analyses (results : List TenderDocRes)
    (hnd : ∀ r ∈ results, (r.extracted.map Prod.fst).Nodup) :
    (∀ f, lookupL (_merge_tender_analyses results).1 f = mergedFieldSpec results f) ∧
    (_merge_tender_analyses results).2.1 =
      String.intercalate "\n\n" (labeledPartsSpec results (fun r => r.german_summary)) ∧
    (_merge_tender_analyses results).2.2 =
      String.intercalate "\n\n" (labeledPartsSpec results (fun r => r.notes)) := by
  cases results with
  | nil => exact ⟨fun f => rfl, rfl, rfl⟩
  | cons r0 rest =>
      have hrest : ∀ r ∈ rest, (r.extracted.map Prod.fst).Nodup :=
        fun r hr => hnd r (List.mem_cons_of_mem r0 hr)
      refine ⟨?_, ?_, ?_⟩
      · intro f
        show lookupL (rest.foldl (fun a r => mergeDocFields a r.extracted)
            r0.extracted) f = _
        rw [lookupL_merge_fold rest r0.extracted f hrest]
        have hflip : specFold (lookupL r0.extracted f) (fieldValues rest f) =
            specFold none (fieldValues (r0 :: rest) f) := by
          unfold fieldValues
          rw [List.filterMap_cons]
          cases hv : lookupL r0.extracted f with
          | none => rfl
          | some v =>
              show _ = specFold none (v :: rest.filterMap
                (fun r => lookupL r.extracted f))
              unfold specFold
              rw [List.foldl_cons]
        rw [hflip, specFold_none_char]
        rfl
      · show (if (labeledParts (r0 :: rest) (fun r => r.german_summary)).isEmpty
            then "" else String.intercalate "\n\n"
              (labeledParts (r0 :: rest) (fun r => r.german_summary))) = _
        rw [labeledParts_eq_spec]
        cases h : labeledPartsSpec (r0 :: rest) (fun r => r.german_summary) with
        | nil => rfl
        | cons x xs => rfl
      · show (if (labeledParts (r0 :: rest) (fun r => r.notes)).isEmpty
            then "" else String.intercalate "\n\n"
              (labeledParts (r0 :: rest) (fun r => r.notes))) = _
        rw [labeledParts_eq_spec]
        cases h : labeledPartsSpec (r0 :: rest) (fun r => r.notes) with
        | nil => rfl
        | cons x xs => rfl

/-- The two concrete documents of the C5 merge-precedence example. -/
def c5wDocs : List TenderDocRes :=
  [⟨some "a.pdf", [("A", .str "X"), ("B", .str "Nicht angegeben")], "Sum one", ""⟩,
   ⟨some "b.pdf", [("A", .str "Y"), ("B", .str "Z")], "", "Note two"⟩]

/-- Witness for C5, at the claim's own example: merging
`A = "X", B = "Nicht angegeben"` with `A = "Y", B = "Z"`. -/
theorem C5_witness :
    (∀ r ∈ c5wDocs, (r.extracted.map Prod.fst).Nodup) ∧
    ((∀ f, lookupL (_merge_tender_analyses c5wDocs).1 f = mergedFieldSpec c5wDocs f) ∧
    (_merge_tender_analyses c5wDocs).2.1 =
      String.intercalate "\n\n" (labeledPartsSpec c5wDocs (fun r => r.german_summary)) ∧
    (_merge_tender_analyses c5wDocs).2.2 =
      String.intercalate "\n\n" (labeledPartsSpec c5wDocs (fun r => r.notes))) :=
  ⟨by decide, C5_merge_tender_analyses c5wDocs (by decide)⟩

example : (_merge_tender_analyses c5wDocs).1 =
    [("A", .str "X"), ("B", .str "Z")] := rfl

example : (_merge_tender_analyses c5wDocs).2.1 = "[a.pdf] Sum one" := rfl

example : (_merge_tender_analyses c5wDocs).2.2 = "[b.pdf] Note two" := rfl

/-- C6: for every parsed JSON object, `extract_client_and_products_from_invoices`
returns an object containing every required top-level key, with
`"Not specified"` for the missing string keys and `[]` for a missing
`products` array, and every products entry independently defaulted
against the entry sub-schema, so every returned entry carries the full
entry key set (exactly that set when the model only omits fields). -/
theorem C6_invoice_schema_completeness (t : String)
    (jsonParse : String → Except String JValue) (kvs : JObj) (items : List JValue)
    (hparse : jsonParse (strip_markdown_fences t) = .ok (.obj kvs))
    (hprod : (lookupL kvs "products").getD (.arr []) = .arr items)
    (hitems : ∀ it ∈ items, pyFalsy it = true ∨ it.isObj = true) :
    ∃ out : JObj,
      extract_client_and_products_from_invoices true (.returns t) jsonParse =
        .obj out ∧
      (∀ k ∈ invoice_top_keys, (lookupL out k).isSome) ∧
      (∀ k ∈ invoice_string_keys, lookupL kvs k = none →
        lookupL out k = some (.str "Not specified")) ∧
      (lookupL kvs "products" = none → lookupL out "products" = some (.arr [])) ∧
      (∀ es, lookupL out "products" = some (.arr es) →
        ∀ n ∈ es, ∃ ekvs, n = .obj ekvs ∧
          (∀ k ∈ invoice_entry_keys, (lookupL ekvs k).isSome) ∧
          ((∀ it ∈ items, ∀ k, (lookupJ it k).isSome → k ∈ invoice_entry_keys) →
            ∀ k, ((lookupL ekvs k).isSome ↔ k ∈ invoice_entry_keys))) := by
  obtain ⟨parsed, hP⟩ : ∃ p, setdefaultAll kvs invoice_top_defaults = p := ⟨_, rfl⟩
  have hdefprod : lookupL invoice_top_defaults "products" = some (.arr []) := rfl
  have hlook : ∀ k, lookupL parsed k =
      optOr (lookupL kvs k) (lookupL invoice_top_defaults k) := by
    intro k
    rw [← hP]
    exact lookupL_setdefaultAll invoice_top_defaults kvs k
  have hpp : (lookupL parsed "products").getD (.arr []) = .arr items := by
    rw [hlook "products", hdefprod]
    cases hkv : lookupL kvs "products" with
    | none =>
        rw [hkv] at hprod
        exact hprod
    | some w =>
        rw [hkv] at hprod
        exact hprod
  obtain ⟨ns, hns⟩ := normalize_invoice_items_total parsed items hitems
  have hparsed_eq : normalize_invoice_parsed parsed =
      some (.obj (setKeyD parsed "products" (.arr ns))) := by
    simp only [normalize_invoice_parsed, hpp, hns]
  have hres : extract_client_and_products_from_invoices true (.returns t) jsonParse =
      .obj (setKeyD parsed "products" (.arr ns)) := by
    simp only [extract_client_and_products_from_invoices, hparse,
      normalize_invoice_payload, hP, hparsed_eq]
    simp
  refine ⟨setKeyD parsed "products" (.arr ns), hres, ?_, ?_, ?_, ?_⟩
  · intro k hk
    by_cases hkp : k = "products"
    · subst hkp
      rw [lookupL_setKeyD, if_pos rfl]
      rfl
    · rw [lookupL_setKeyD, if_neg hkp, hlook k]
      cases hkv2 : lookupL kvs k with
      | some w => rfl
      | none =>
          rw [optOr_none, lookupL_isSome_iff]
          exact hk
  · intro k hk hknone
    have hkp : k ≠ "products" := by
      intro hcon
      subst hcon
      revert hk
      decide
    rw [lookupL_setKeyD, if_neg hkp, hlook k, hknone, optOr_none]
    fin_cases hk <;> rfl
  · intro hkv
    have hitems_nil : items = [] := by
      rw [hkv] at hprod
      simp only [Option.getD_none] at hprod
      exact (JValue.arr.inj hprod).symm
    have hns_nil : ns = [] := by
      have hz : normalize_invoice_items parsed [] = some [] := rfl
      have h2 : (some [] : Option (List JValue)) = some ns := by
        rw [← hz, ← hitems_nil]
        exact hns
      exact (Option.some.inj h2).symm
    rw [lookupL_setKeyD, if_pos rfl, hns_nil]
  · intro es hes n hn
    rw [lookupL_setKeyD, if_pos rfl] at hes
    have hns_es : ns = es := JValue.arr.inj (Option.some.inj hes)
    rw [hns_es] at hns
    obtain ⟨it, hitmem, hitn⟩ :=
      normalize_invoice_items_mem parsed items es hns n hn
    obtain ⟨ekvs, hneq, hall, hprov⟩ :=
      normalize_invoice_item_entry_keys parsed it n hitn
    refine ⟨ekvs, hneq, hall, ?_⟩
    intro hsub k
    constructor
    · intro hk_some
      rcases hprov k hk_some with hmem | hjs
      · exact hmem
      · exact hsub it hitmem k hjs
    · intro hmem
      exact hall k hmem

/-- Concrete parsed invoice object for the C6 witness: only one top-level
key, one product entry missing most fields, and one null entry. -/
def c6wKvs : JObj :=
  [("invoice_number", .str "42"),
   ("products", .arr [.obj [("product_name", .str "Widget")], .null])]

/-- The products array of `c6wKvs`. -/
def c6wItems : List JValue := [.obj [("product_name", .str "Widget")], .null]

/-- Witness for C6: at the concrete input, the result carries all
top-level keys, sentinel defaults, and fully defaulted entries. -/
theorem C6_witness :
    ((fun _ : String => (Except.ok (JValue.obj c6wKvs) : Except String JValue))
        (strip_markdown_fences "resp") = .ok (.obj c6wKvs)) ∧
    ((lookupL c6wKvs "products").getD (.arr []) = .arr c6wItems) ∧
    (∀ it ∈ c6wItems, pyFalsy it = true ∨ it.isObj = true) ∧
    (∃ out : JObj,
      extract_client_and_products_from_invoices true (.returns "resp")
          (fun _ : String =>
            (Except.ok (JValue.obj c6wKvs) : Except String JValue)) =
        .obj out ∧
      (∀ k ∈ invoice_top_keys, (lookupL out k).isSome) ∧
      (∀ k ∈ invoice_string_keys, lookupL c6wKvs k = none →
        lookupL out k = some (.str "Not specified")) ∧
      (lookupL c6wKvs "products" = none → lookupL out "products" = some (.arr [])) ∧
      (∀ es, lookupL out "products" = some (.arr es) →
        ∀ n ∈ es, ∃ ekvs, n = .obj ekvs ∧
          (∀ k ∈ invoice_entry_keys, (lookupL ekvs k).isSome) ∧
          ((∀ it ∈ c6wItems, ∀ k, (lookupJ it k).isSome → k ∈ invoice_entry_keys) →
            ∀ k, ((lookupL ekvs k).isSome ↔ k ∈ invoice_entry_keys)))) :=
  ⟨rfl, rfl, by decide,
   C6_invoice_schema_completeness "resp"
     (fun _ : String => (Except.ok (JValue.obj c6wKvs) : Except String JValue))
     c6wKvs c6wItems rfl rfl (by decide)⟩
